import Mathlib

set_option autoImplicit false

/-- JSON values as produced by `JSON.parse` and manipulated by the config
manager: null, booleans, numbers, strings, arrays and objects. Objects are
insertion-ordered association lists of string keys, matching the enumeration
order of plain JavaScript objects. Numbers are modelled as integers, which
covers every numeric literal appearing in the specification's examples. -/
inductive JSON where
  | null
  | bool (b : Bool)
  | num (n : Int)
  | str (s : String)
  | arr (xs : List JSON)
  | obj (fields : List (String × JSON))

mutual

/-- Structural boolean equality on JSON values. -/
def beqJ : JSON → JSON → Bool
  | .null, .null => true
  | .bool a, .bool b => a = b
  | .num a, .num b => a = b
  | .str a, .str b => a = b
  | .arr a, .arr b => beqL a b
  | .obj a, .obj b => beqF a b
  | _, _ => false

/-- Structural boolean equality on JSON arrays. -/
def beqL : List JSON → List JSON → Bool
  | [], [] => true
  | x :: xs, y :: ys => beqJ x y && beqL xs ys
  | _, _ => false

/-- Structural boolean equality on JSON object field lists. -/
def beqF : List (String × JSON) → List (String × JSON) → Bool
  | [], [] => true
  | (k, v) :: xs, (k', v') :: ys => k = k' && beqJ v v' && beqF xs ys
  | _, _ => false

end

def beq_iff_aux (n : Nat) :
    (∀ a b : JSON, sizeOf a ≤ n → (beqJ a b = true ↔ a = b))
    ∧ (∀ xs ys : List JSON, sizeOf xs ≤ n → (beqL xs ys = true ↔ xs = ys))
    ∧ (∀ fs gs : List (String × JSON), sizeOf fs ≤ n → (beqF fs gs = true ↔ fs = gs)) := by
  induction n using Nat.strong_induction_on with
  | _ n ih =>
    refine ⟨?_, ?_, ?_⟩
    · intro a b hn
      cases a <;> cases b <;> simp only [beqJ] <;> (try simp)
      · case arr.arr xs ys =>
        simp only [JSON.arr.sizeOf_spec] at hn
        exact (ih (sizeOf xs) (by omega)).2.1 xs ys le_rfl
      · case obj.obj fs gs =>
        simp only [JSON.obj.sizeOf_spec] at hn
        exact (ih (sizeOf fs) (by omega)).2.2 fs gs le_rfl
    · intro xs ys hn
      cases xs <;> cases ys <;> simp only [beqL] <;> (try simp)
      case cons.cons x xs y ys =>
        simp only [List.cons.sizeOf_spec] at hn
        rw [(ih (sizeOf x) (by omega)).1 x y le_rfl,
          (ih (sizeOf xs) (by omega)).2.1 xs ys le_rfl]
    · intro fs gs hn
      cases fs <;> cases gs <;> simp only [beqF] <;> (try simp)
      case cons.cons f fs g gs =>
        obtain ⟨k, v⟩ := f
        obtain ⟨k', v'⟩ := g
        simp only [List.cons.sizeOf_spec, Prod.mk.sizeOf_spec] at hn
        rw [(ih (sizeOf v) (by omega)).1 v v' le_rfl,
          (ih (sizeOf fs) (by omega)).2.2 fs gs le_rfl]
        simp [Prod.ext_iff, and_assoc]

def beqJ_iff (a b : JSON) : beqJ a b = true ↔ a = b :=
  (beq_iff_aux (sizeOf a)).1 a b le_rfl

instance : DecidableEq JSON := fun a b => decidable_of_iff (beqJ a b = true) (beqJ_iff a b)

/-- First-occurrence lookup in an object's field list, i.e. `target[key]`
on a plain object (returns `none` for an absent property = `undefined`). -/
def getKey : List (String × JSON) → String → Option JSON
  | [], _ => none
  | (k', v') :: rest, k => if k' = k then some v' else getKey rest k

/-- Property assignment `target[key] = v` on a plain object: an existing key
keeps its position, a new key is appended at the end (JS insertion order). -/
def setKey : List (String × JSON) → String → JSON → List (String × JSON)
  | [], k, v => [(k, v)]
  | (k', v') :: rest, k, v =>
    if k' = k then (k, v) :: rest else (k', v') :: setKey rest k v

/-- `delete target[key]` on a plain object: removes the property. -/
def delKey : List (String × JSON) → String → List (String × JSON)
  | [], _ => []
  | (k', v') :: rest, k => if k' = k then rest else (k', v') :: delKey rest k

/-- JavaScript truthiness of a JSON value (`NaN` does not arise: numbers are
integers). Objects and arrays are always truthy. -/
def truthy : JSON → Bool
  | .null => false
  | .bool b => b
  | .num n => n != 0
  | .str s => s ≠ ""
  | .arr _ => true
  | .obj _ => true

/-- `isObject` from src/ConfigMerger.ts:
`item && typeof item === 'object' && !Array.isArray(item)` — true exactly on
plain objects (null is falsy, arrays are excluded). -/
def isObject : JSON → Bool
  | .obj _ => true
  | _ => false

/-- JavaScript `typeof` of a defined JSON value. `typeof null` and
`typeof` of an array are both `"object"`. -/
def typeOfVal : JSON → String
  | .null => "object"
  | .bool _ => "boolean"
  | .num _ => "number"
  | .str _ => "string"
  | .arr _ => "object"
  | .obj _ => "object"

/-- JavaScript `typeof` of a possibly-undefined property value. -/
def typeOfOpt : Option JSON → String
  | none => "undefined"
  | some v => typeOfVal v

mutual

/-- `mergeConfigs(target, source)` from src/ConfigMerger.ts, specialised to a
single source (the variadic form folds this from the left, see
`mergeConfigsMany`). If both values are plain objects, each source key is
processed in order: a plain-object source value is recursively merged into
`target[key]` after replacing a *falsy* `target[key]` by `{}` (the code's
guard is `if (!target[key])`); any other source value is assigned over
`target[key]`. A non-object target or source is returned unchanged. The
in-place mutation `mergeConfigs(target[key], source[key])` is rendered as
re-assigning the recursive result at `key`: when `target[key]` is a truthy
non-object the recursive call returns it unchanged, exactly as the JS
mutation leaves it untouched. -/
def mergeConfigs (target source : JSON) : JSON :=
  match target, source with
  | .obj tf, .obj sf => .obj (mergeFields tf sf)
  | t, _ => t

/-- One pass of the `for (const key in source)` loop of `mergeConfigs`,
threading the target's field list left to right across the source's fields. -/
def mergeFields (tf : List (String × JSON)) : List (String × JSON) → List (String × JSON)
  | [] => tf
  | (k, sv) :: rest =>
    let tf' :=
      if isObject sv then
        let base :=
          match getKey tf k with
          | some tv => if truthy tv then tv else .obj []
          | none => .obj []
        setKey tf k (mergeConfigs base sv)
      else
        setKey tf k sv
    mergeFields tf' rest

end

/-- The variadic `mergeConfigs(target, ...sources)`: shift the first source,
merge it, recurse on the remaining sources; no sources returns the target. -/
def mergeConfigsMany (target : JSON) : List JSON → JSON
  | [] => target
  | s :: rest => mergeConfigsMany (mergeConfigs target s) rest

/-- Errors raised by the config manager. The three path errors correspond to
the three `throw new Error(...)` sites of `ConfigManager.validatePath`; the
error message strings are summarised by the constructor carrying the
offending path. `typeError` stands for a JavaScript `TypeError` raised by
property access on `undefined`/`null` (or `Object.keys` of them, or strict-
mode property assignment on a primitive). `unmodeled` marks host behaviours
that leave the JSON value space (enumerating or assigning index properties
of arrays and strings); no claim exercises them. -/
inductive CMError where
  | invalidPathCharacter (path : String)
  | invalidPathBoundary (path : String)
  | invalidPathSegment (path : String)
  | typeError
  | unmodeled
  deriving DecidableEq

/-- A character matched by the character class `[a-z0-9_\-.]` with the `i`
flag: ASCII letters, digits, underscore, dash, dot. -/
def isPathChar (c : Char) : Bool :=
  c.isAlpha || c.isDigit || c = '_' || c = '-' || c = '.'

/-- Whether the character list contains two consecutive dots, i.e. the regex
test `/[.]{2,}/`. -/
def hasDoubleDot : List Char → Bool
  | [] => false
  | [_] => false
  | a :: b :: rest => (a = '.' && b = '.') || hasDoubleDot (b :: rest)

/-- `ConfigManager.validatePath`. The empty path returns at once. The first
check is the regex test `/[a-z0-9_\-.]+/gi.test(path)`, which is *not*
anchored: it succeeds as soon as the path contains at least one character of
the class, so the `InvalidPathCharacter` error fires only when *no* character
of the path belongs to the class. Then `/(^\.)|(\.$)/` (starts or ends with a
dot) and `/[.]{2,}/` (two consecutive dots). -/
def validatePath (path : String) : Except CMError Unit :=
  if path = "" then .ok ()
  else if !path.toList.any isPathChar then .error (.invalidPathCharacter path)
  else if path.toList.head? = some '.' || path.toList.getLast? = some '.' then
    .error (.invalidPathBoundary path)
  else if hasDoubleDot path.toList then .error (.invalidPathSegment path)
  else .ok ()

instance {ε α : Type _} [DecidableEq ε] [DecidableEq α] : DecidableEq (Except ε α) := fun x y =>
  match x, y with
  | .ok a, .ok b => if h : a = b then .isTrue (by rw [h]) else .isFalse (by simp_all)
  | .error a, .error b => if h : a = b then .isTrue (by rw [h]) else .isFalse (by simp_all)
  | .ok _, .error _ => .isFalse (by simp)
  | .error _, .ok _ => .isFalse (by simp)

/-- Accumulating splitter: `splitPathAux cur cs` splits `cs` on `'.'`, with
`cur` holding the current segment's characters in reverse. -/
def splitPathAux : List Char → List Char → List String
  | cur, [] => [String.mk cur.reverse]
  | cur, c :: rest =>
    if c = '.' then String.mk cur.reverse :: splitPathAux [] rest
    else splitPathAux (c :: cur) rest

/-- `path.split('.')` — on the empty string this yields `[""]`, exactly as in
JavaScript. -/
def splitPath (path : String) : List String :=
  splitPathAux [] path.toList

/-- The contents of the backing file: absent, present but unparsable JSON, or
present and parsing to a JSON value. -/
inductive DiskContent where
  | absent
  | invalid
  | valid (j : JSON)
  deriving DecidableEq

/-- The state of one `ConfigManager` instance together with its backing file.
`config` is `Option JSON` because after a parse failure the `config` field is
left `undefined` (its declaration has no initializer, unlike `oldConfig` and
`defaultConfig` which are initialized to `{}`). `loadError` records whether
`configFileLoadingError` is non-null. `disk` is the current file content. -/
structure ConfigState where
  created : Bool
  oldConfig : JSON
  config : Option JSON
  defaultConfig : JSON
  loadError : Bool
  disk : DiskContent
  deriving DecidableEq

/-- The `ConfigManager` constructor. If the file exists and parses, `config`
is the parsed document and `oldConfig` its deep copy `mergeConfigs({}, config)`;
if parsing throws, the error is caught and recorded and `config` stays
`undefined`; if the file does not exist, `created` stays `true` and `config`
is set to `{}`. -/
def mkConfigManager : DiskContent → ConfigState
  | .absent =>
    { created := true, oldConfig := .obj [], config := some (.obj []),
      defaultConfig := .obj [], loadError := false, disk := .absent }
  | .invalid =>
    { created := false, oldConfig := .obj [], config := none,
      defaultConfig := .obj [], loadError := true, disk := .invalid }
  | .valid j =>
    { created := false, oldConfig := mergeConfigs (.obj []) j, config := some j,
      defaultConfig := .obj [], loadError := false, disk := .valid j }

/-- The walking loop of `ConfigManager.getOrCreateConfigPath`: descend one
segment at a time; at each segment, if `typeof root[p] !== 'object'` (i.e.
the value is absent or a scalar — note that `null` and arrays have `typeof`
`"object"` and are *not* replaced), assign `root[p] = {}`; then descend into
`root[p]`. Returns the updated document together with the value reached at
the final segment. Descending *into* `null` raises a `TypeError` (property
read on `null`); descending into an array or another primitive would read
and strict-mode-assign index/string properties of a non-JSON host object and
is mapped to `unmodeled` (`TypeError` for primitives, where the assignment
throws in strict mode). -/
def getOrCreateWalk : JSON → List String → Except CMError (JSON × JSON)
  | doc, [] => .ok (doc, doc)
  | .obj fields, p :: rest =>
    let child :=
      match getKey fields p with
      | some v => if typeOfVal v = "object" then v else .obj []
      | none => .obj []
    match getOrCreateWalk child rest with
    | .ok (child', v) => .ok (.obj (setKey fields p child'), v)
    | .error e => .error e
  | .null, _ :: _ => .error .typeError
  | .arr _, _ :: _ => .error .unmodeled
  | _, _ :: _ => .error .typeError

/-- `ConfigManager.getOrCreateConfigPath`: the empty path returns the
document root (which is `undefined` after a parse failure); otherwise the
path is validated, then the walk runs from `this.config` (a property read on
an `undefined` root raises a `TypeError`). -/
def getOrCreateConfigPath (s : ConfigState) (path : String) :
    Except CMError (ConfigState × Option JSON) :=
  if path = "" then .ok (s, s.config)
  else
    match validatePath path with
    | .error e => .error e
    | .ok _ =>
      match s.config with
      | none => .error .typeError
      | some c =>
        match getOrCreateWalk c (splitPath path) with
        | .ok (c', v) => .ok ({ s with config := some c' }, some v)
        | .error e => .error e

/-- The chain of nested single-key mappings built by both
`ConfigManager.updateConfigPath` (via reverse-and-wrap) and
`ConfigManager.addDefaultConfig`: `nestChain [s1, ..., sn] v` is
`{s1: {s2: ... {sn: v}}}` and `nestChain [] v` is `v`. -/
def nestChain : List String → JSON → JSON
  | [], v => v
  | p :: rest, v => .obj [(p, nestChain rest v)]

/-- `Object.assign(target, values)` as invoked by `updateConfigPath` on the
empty path. An object source has its own keys shallow-assigned onto an
object target in order; `null`/number/boolean sources contribute no own
enumerable properties; string and array sources would spread index
properties (unmodeled); a `null`/`undefined` target raises a `TypeError`; a
primitive target is boxed and the boxed copy discarded, leaving the state
unchanged. -/
def objAssign : JSON → JSON → Except CMError JSON
  | .null, _ => .error .typeError
  | .obj tf, .obj vf => .ok (.obj (vf.foldl (fun acc kv => setKey acc kv.1 kv.2) tf))
  | .obj _, .str _ => .error .unmodeled
  | .obj _, .arr _ => .error .unmodeled
  | .obj tf, _ => .ok (.obj tf)
  | t, _ => .ok t

/-- `ConfigManager.saveConfig`: serialises `this.config` to the backing file
(directory creation is invisible in this model). Writing an `undefined`
document would throw in `writeFileSync`; no public operation reaches that
state with a write. -/
def saveConfig (s : ConfigState) : Except CMError ConfigState :=
  match s.config with
  | some j => .ok { s with disk := .valid j }
  | none => .error .typeError

/-- `ConfigManager.updateConfigPath`: ensure the path exists via
`getOrCreateConfigPath`; for a non-empty path assign the nested single-key
chain at the path's top-level key on the document; for the empty path
`Object.assign` the values onto the document root; save; return the result
of a final `getOrCreateConfigPath` (which may mutate the document again
without saving, e.g. replacing a scalar it finds at the path by `{}`). -/
def updateConfigPath (s : ConfigState) (path : String) (values : JSON) :
    Except CMError (ConfigState × Option JSON) :=
  match getOrCreateConfigPath s path with
  | .error e => .error e
  | .ok (s1, _) =>
    let step : Except CMError ConfigState :=
      if path = "" then
        match s1.config with
        | none => .error .typeError
        | some c =>
          match objAssign c values with
          | .ok c' => .ok { s1 with config := some c' }
          | .error e => .error e
      else
        match splitPath path, s1.config with
        | k :: rest, some (.obj fields) =>
          .ok { s1 with config := some (.obj (setKey fields k (nestChain rest values))) }
        | _, _ => .error .typeError
    match step with
    | .error e => .error e
    | .ok s2 =>
      match saveConfig s2 with
      | .error e => .error e
      | .ok s3 => getOrCreateConfigPath s3 path

/-- `ConfigManager.addDefaultConfig`: validate the path, wrap the defaults in
one mapping layer per segment of `path.split('.')` — note that the empty
path splits to `[""]` and therefore wraps the defaults under the literal key
`""` — and deep-merge the result into `this.defaultConfig`. -/
def addDefaultConfig (s : ConfigState) (path : String) (defaults : JSON) :
    Except CMError ConfigState :=
  match validatePath path with
  | .error e => .error e
  | .ok _ =>
    .ok { s with
      defaultConfig := mergeConfigs s.defaultConfig (nestChain (splitPath path) defaults) }

/-- `ConfigManager.configSection`: read the current value at the path via
`getOrCreateConfigPath`; if it is the very `defaults` value, return it
unchanged (the JS guard is reference identity `root === defaultConfig`;
structural equality is coarser, and every theorem about the non-fast-path
case assumes structural inequality, which implies reference inequality);
otherwise register the defaults, merge `(defaults, root || {})` and persist
the merged result at the path via `updateConfigPath`. -/
def configSection (s : ConfigState) (path : String) (defaults : JSON) :
    Except CMError (ConfigState × Option JSON) :=
  match getOrCreateConfigPath s path with
  | .error e => .error e
  | .ok (s1, root) =>
    if root = some defaults then .ok (s1, root)
    else
      match addDefaultConfig s1 path defaults with
      | .error e => .error e
      | .ok s2 =>
        let stored :=
          match root with
          | some r => if truthy r then r else .obj []
          | none => .obj []
        updateConfigPath s2 path (mergeConfigs defaults stored)

/-- One entry of the `wrongTypes` list of a validation report. -/
structure WrongType where
  path : String
  expected : String
  actual : String
  deriving DecidableEq

/-- The `created` field of `ConfigValidation`: either the boolean `true`
("the whole document is new") or the incremental list of newly-appeared
paths. -/
inductive CreatedField where
  | whole
  | paths (l : List String)
  deriving DecidableEq

/-- The `ConfigValidation` report returned by `validateConfig`. -/
structure ConfigValidation where
  created : CreatedField
  wrongTypes : List WrongType
  unusedValues : List String
  deriving DecidableEq

/-- The three output lists pushed to during one (sub)walk of the validation
`resolve` function, in push order. -/
structure VWalk where
  created : List String
  unusedValues : List String
  wrongTypes : List WrongType
  deriving DecidableEq

/-- Concatenation of walk outputs, preserving push order. -/
def VWalk.append (a b : VWalk) : VWalk :=
  ⟨a.created ++ b.created, a.unusedValues ++ b.unusedValues,
   a.wrongTypes ++ b.wrongTypes⟩

/-- A canonical array index: the strings JavaScript produces for array keys
(`"0"`, `"1"`, ...; `"00"` is not an index). -/
def canonIndex (k : String) : Option Nat :=
  match k.toNat? with
  | some n => if toString n = k then some n else none
  | none => none

/-- The property read `o[k]` as performed by the validation walk on the
`oldConf` and `defConf` trees: `none` is `undefined`. Reading a property of
`null` raises a `TypeError`; arrays answer canonical index keys; strings
answer index keys with one-character strings; numbers and booleans have no
own properties. -/
def jsGet : JSON → String → Except CMError (Option JSON)
  | .null, _ => .error .typeError
  | .obj fields, k => .ok (getKey fields k)
  | .arr xs, k =>
    match canonIndex k with
    | some n => .ok (xs.get? n)
    | none => .ok none
  | .str s, k =>
    match canonIndex k with
    | some n => .ok ((s.toList.get? n).map fun c => .str (String.mk [c]))
    | none => .ok none
  | _, _ => .ok none

/-- The snapshot subtree passed to a recursive validation call:
`oldConf[key] || {}` — a falsy value (absent, `null`, `0`, `""`, `false`)
is replaced by an empty mapping. -/
def oldGuard : Option JSON → JSON
  | some o => if truthy o then o else .obj []
  | none => .obj []

mutual

/-- The `for (const key of Object.keys(conf))` loop of the `resolve` closure
inside `ConfigManager.validateConfig`, processing the snapshot of `conf`'s
keys in order while threading the (possibly pruned) field list. Per key:
push the dotted path to `created` if `oldConf[key]` is `undefined`; if
`typeof conf[key]` differs from `typeof defConf[key]`, either record the
path as unused (and, when `clearUnusedValues` is set, delete the key) when
the default is `undefined`, or record a type mismatch; finally recurse when
both values have `typeof === 'object'`, passing `oldConf[key] || {}` as the
snapshot subtree. A just-deleted key is never recursed into (its default was
`undefined`, so the recursion guard already fails), matching the live
re-reads in the JS loop. -/
def resolveFields (clear firstLevel : Bool) (path : String) :
    List (String × JSON) → JSON → JSON → Except CMError (List (String × JSON) × VWalk)
  | [], _, _ => .ok ([], ⟨[], [], []⟩)
  | (k, v) :: rest, oldConf, defConf =>
    let propKey := if firstLevel then k else path ++ "." ++ k
    match jsGet oldConf k with
    | .error e => .error e
    | .ok oldv =>
      let createdHere : List String := if oldv = none then [propKey] else []
      match jsGet defConf k with
      | .error e => .error e
      | .ok defv =>
        let tv := typeOfVal v
        let td := typeOfOpt defv
        if td = tv then
          if tv = "object" then
            let dv := match defv with | some d => d | none => .null
            match resolveVal clear false propKey v (oldGuard oldv) dv with
            | .error e => .error e
            | .ok (v', w) =>
              match resolveFields clear firstLevel path rest oldConf defConf with
              | .error e => .error e
              | .ok (rest', wr) =>
                .ok ((k, v') :: rest',
                  VWalk.append ⟨createdHere, [], []⟩ (VWalk.append w wr))
          else
            match resolveFields clear firstLevel path rest oldConf defConf with
            | .error e => .error e
            | .ok (rest', wr) =>
              .ok ((k, v) :: rest', VWalk.append ⟨createdHere, [], []⟩ wr)
        else if td = "undefined" then
          match resolveFields clear firstLevel path rest oldConf defConf with
          | .error e => .error e
          | .ok (rest', wr) =>
            .ok (if clear then rest' else (k, v) :: rest',
              VWalk.append ⟨createdHere, [propKey], []⟩ wr)
        else
          match resolveFields clear firstLevel path rest oldConf defConf with
          | .error e => .error e
          | .ok (rest', wr) =>
            .ok ((k, v) :: rest',
              VWalk.append ⟨createdHere, [], [⟨propKey, td, tv⟩]⟩ wr)

/-- One invocation of the validation `resolve` closure on a current-config
value: `Object.keys` of an object yields its field list; of `null` it raises
a `TypeError`; of a number or boolean it yields `[]`; arrays and strings
would enumerate index properties (unmodeled). -/
def resolveVal (clear firstLevel : Bool) (path : String) :
    JSON → JSON → JSON → Except CMError (JSON × VWalk)
  | .obj fields, oldConf, defConf =>
    match resolveFields clear firstLevel path fields oldConf defConf with
    | .error e => .error e
    | .ok (fields', w) => .ok (.obj fields', w)
  | .null, _, _ => .error .typeError
  | .arr _, _, _ => .error .unmodeled
  | .str _, _, _ => .error .unmodeled
  | v, _, _ => .ok (v, ⟨[], [], []⟩)

end

/-- `ConfigManager.validateConfig`: run the recursive walk from
`(this.config, this.oldConfig, this.defaultConfig)` with `firstLevel = true`
and the empty path; then force `created = true` if the file did not exist at
construction time; when `clearUnusedValues` is set, persist the (possibly
pruned) document. A `config` left `undefined` by a parse failure makes
`Object.keys(this.config)` throw. -/
def validateConfig (s : ConfigState) (clear : Bool) :
    Except CMError (ConfigState × ConfigValidation) :=
  match s.config with
  | none => .error .typeError
  | some c =>
    match resolveVal clear true "" c s.oldConfig s.defaultConfig with
    | .error e => .error e
    | .ok (c', w) =>
      let rep : ConfigValidation :=
        { created := if s.created then .whole else .paths w.created,
          wrongTypes := w.wrongTypes, unusedValues := w.unusedValues }
      let s1 := { s with config := some c' }
      if clear then
        match saveConfig s1 with
        | .error e => .error e
        | .ok s2 => .ok (s2, rep)
      else .ok (s1, rep)

/-- Pure lookup of the value stored at a dotted path (given as segments) in a
JSON tree, descending only through objects. Used to state properties; not
part of the translated code. -/
def getPath : JSON → List String → Option JSON
  | j, [] => some j
  | .obj fields, k :: rest =>
    match getKey fields k with
    | some v => getPath v rest
    | none => none
  | _, _ :: _ => none

/-- No two entries of the field list share a key. -/
def keysNodupB : List (String × JSON) → Bool
  | [] => true
  | (k, _) :: rest => !(rest.any fun kv => kv.1 = k) && keysNodupB rest

mutual

/-- A JSON value that denotes a JavaScript value reachable from `JSON.parse`:
every object level has pairwise-distinct keys (a JS object cannot hold
duplicate own keys). -/
def wfJSON : JSON → Bool
  | .obj fields => keysNodupB fields && wfFields fields
  | .arr xs => wfList xs
  | _ => true

/-- All elements are well-formed. -/
def wfList : List JSON → Bool
  | [] => true
  | x :: xs => wfJSON x && wfList xs

/-- All field values are well-formed. -/
def wfFields : List (String × JSON) → Bool
  | [] => true
  | (_, v) :: rest => wfJSON v && wfFields rest

end

/-- The claim-side notion "the key at this dotted path is visited by the
lock-step validation walk and its DefaultsTree entry is absent": every
proper prefix of the path leads to a plain object in both the document and
the defaults tree, the document has the final key, and the defaults tree
does not. -/
def lockstepUnused : JSON → JSON → List String → Bool
  | .obj cf, .obj df, [k] => (getKey cf k).isSome && (getKey df k).isNone
  | .obj cf, .obj df, k :: rest =>
    match getKey cf k, getKey df k with
    | some c', some d' => isObject c' && isObject d' && lockstepUnused c' d' rest
    | _, _ => false
  | _, _, _ => false

/-- The claim-side notion "the key at this dotted path is visited by the
lock-step validation walk and its DefaultsTree entry is present". -/
def lockstepPresent : JSON → JSON → List String → Bool
  | .obj cf, .obj df, [k] => (getKey cf k).isSome && (getKey df k).isSome
  | .obj cf, .obj df, k :: rest =>
    match getKey cf k, getKey df k with
    | some c', some d' => isObject c' && isObject d' && lockstepPresent c' d' rest
    | _, _ => false
  | _, _, _ => false

def sNull : ConfigState :=
  { created := false, oldConfig := .obj [], config := some (.obj [("X", JSON.null)]),
    defaultConfig := .obj [], loadError := false, disk := .valid (.obj [("X", JSON.null)]) }

def dfltR : JSON := .obj [("host", .num 1)]

def sR : ConfigState :=
  { created := true, oldConfig := .obj [], config := some dfltR,
    defaultConfig := .obj [("", dfltR)], loadError := false,
    disk := .valid dfltR }

def emptyPathState (df : List (String × JSON)) : ConfigState :=
  { created := true, oldConfig := .obj [], config := some (.obj df),
    defaultConfig := .obj [("", mergeConfigs (.obj []) (.obj df))],
    loadError := false, disk := .valid (.obj df) }

/-- The dotted rendering of a segment list as built incrementally by the
validation walk: root-level keys carry no separator, nested keys are joined
with dots. -/
def joinDots : List String → String
  | [] => ""
  | [k] => k
  | k :: rest => k ++ "." ++ joinDots rest

/-- The on-disk document of the second-store scenario:
`{"DB":{"host":"127.0.0.1"}}`. -/
def docDB : JSON := .obj [("DB", .obj [("host", .str "127.0.0.1")])]

/-- The defaults passed to `configSection("DB", ...)` in that scenario:
`{host:"localhost", port:27017}`. -/
def dfltDB : JSON := .obj [("host", .str "localhost"), ("port", .num 27017)]

/-- The merged section value: stored override preserved, missing default
filled in. -/
def mergedDB : JSON := .obj [("host", .str "127.0.0.1"), ("port", .num 27017)]

def docAB : JSON := .obj [("a", .obj [("b", .num 1)])]

def s9 : ConfigState :=
  { created := false, oldConfig := docAB, config := some docAB,
    defaultConfig := .obj [], loadError := false, disk := .valid docAB }

def doc9 : JSON := .obj [("DB", .obj [("host", .str "x"), ("extra", .num 1)])]

def doc9' : JSON := .obj [("DB", .obj [("host", .str "x")])]

def s9b : ConfigState :=
  { created := false, oldConfig := doc9, config := some doc9,
    defaultConfig := .obj [("DB", .obj [("host", .str "y")])], loadError := false,
    disk := .valid doc9 }

/-! Helper lemmas shared by the claim theorems below. -/

theorem truthy_of_isObject (v : JSON) (h : isObject v = true) : truthy v = true := by
  cases v <;> simp_all [isObject, truthy]

theorem mergeConfigs_nonobj (t s : JSON) (h : isObject t = false) : mergeConfigs t s = t := by
  cases t <;> cases s <;> simp_all [mergeConfigs, isObject]

theorem getKey_setKey_self (tf : List (String × JSON)) (k : String) (v : JSON)
    (h : getKey tf k = some v) : setKey tf k v = tf := by
  induction tf with
  | nil => simp [getKey] at h
  | cons hd t ih =>
    obtain ⟨k', v'⟩ := hd
    by_cases hk : k' = k
    · subst hk
      simp [getKey] at h
      simp [setKey, h]
    · simp [getKey, hk] at h
      simp [setKey, hk, ih h]

theorem getKey_setKey (tf : List (String × JSON)) (k : String) (v : JSON) :
    getKey (setKey tf k v) k = some v := by
  induction tf with
  | nil => simp [getKey, setKey]
  | cons hd t ih =>
    obtain ⟨k', v'⟩ := hd
    by_cases hk : k' = k
    · subst hk; simp [setKey, getKey]
    · simp [setKey, getKey, hk, ih]

theorem merge_single (tf : List (String × JSON)) (k : String) (sv : JSON) :
    mergeConfigs (.obj tf) (.obj [(k, sv)])
      = .obj (if isObject sv then
          setKey tf k (mergeConfigs
            (match getKey tf k with
             | some tv => if truthy tv then tv else .obj []
             | none => .obj []) sv)
        else setKey tf k sv) := by
  simp [mergeConfigs, mergeFields]

theorem getOrCreateWalk_getPath : ∀ (segs : List String) (doc doc' v : JSON),
    getOrCreateWalk doc segs = .ok (doc', v) → getPath doc' segs = some v := by
  intro segs
  induction segs with
  | nil =>
    intro doc doc' v h
    simp only [getOrCreateWalk, Except.ok.injEq, Prod.mk.injEq] at h
    obtain ⟨rfl, rfl⟩ := h
    simp [getPath]
  | cons p rest ih =>
    intro doc doc' v h
    cases doc <;> simp only [getOrCreateWalk] at h <;> try simp_all
    case obj fields =>
      cases hw : getOrCreateWalk
          (match getKey fields p with
           | some w => if typeOfVal w = "object" then w else .obj []
           | none => .obj []) rest with
      | error e => rw [hw] at h; simp at h
      | ok pr =>
        obtain ⟨child', v'⟩ := pr
        rw [hw] at h
        simp only [Except.ok.injEq, Prod.mk.injEq] at h
        obtain ⟨hdoc, hv⟩ := h
        subst hdoc; subst hv
        simp [getPath, getKey_setKey, ih _ _ _ hw]

theorem splitPathAux_ne_nil (cur cs : List Char) : splitPathAux cur cs ≠ [] := by
  induction cs generalizing cur with
  | nil => simp [splitPathAux]
  | cons c rest ih =>
    by_cases h : c = '.' <;> simp [splitPathAux, h, ih]

theorem splitPath_ne_nil (path : String) : splitPath path ≠ [] :=
  splitPathAux_ne_nil [] path.toList

theorem walk_empty (segs : List String) :
    getOrCreateWalk (.obj []) segs = .ok (nestChain segs (.obj []), .obj []) := by
  induction segs with
  | nil => simp [getOrCreateWalk, nestChain]
  | cons p rest ih => simp [getOrCreateWalk, getKey, ih, nestChain, setKey]

theorem typeOf_nestChain (segs : List String) (v : JSON) (h : typeOfVal v = "object") :
    typeOfVal (nestChain segs v) = "object" := by
  cases segs with
  | nil => exact h
  | cons p rest => simp [nestChain, typeOfVal]

theorem walk_chain (segs : List String) (v : JSON) (h : typeOfVal v = "object") :
    getOrCreateWalk (nestChain segs v) segs = .ok (nestChain segs v, v) := by
  induction segs with
  | nil => simp [getOrCreateWalk, nestChain]
  | cons p rest ih =>
    simp [nestChain, getOrCreateWalk, getKey, typeOf_nestChain rest v h, ih, setKey]

theorem typeOfVal_ne_undefined (v : JSON) : typeOfVal v ≠ "undefined" := by
  cases v <;> simp [typeOfVal]

theorem setKey_append_of_not_mem (acc : List (String × JSON)) (k : String) (v : JSON)
    (h : ∀ kv ∈ acc, kv.1 ≠ k) : setKey acc k v = acc ++ [(k, v)] := by
  induction acc with
  | nil => simp [setKey]
  | cons hd t ih =>
    obtain ⟨k', v'⟩ := hd
    have hk : k' ≠ k := h (k', v') (by simp)
    simp [setKey, hk, ih fun kv hkv => h kv (by simp [hkv])]

theorem foldl_setKey_nodup : ∀ (df acc : List (String × JSON)),
    keysNodupB df = true → (∀ kv ∈ acc, ∀ kv' ∈ df, kv.1 ≠ kv'.1) →
    df.foldl (fun a kv => setKey a kv.1 kv.2) acc = acc ++ df := by
  intro df
  induction df with
  | nil => simp
  | cons hd t ih =>
    intro acc hnodup hdisj
    obtain ⟨k, v⟩ := hd
    simp only [keysNodupB, Bool.and_eq_true] at hnodup
    rw [List.foldl_cons]
    rw [setKey_append_of_not_mem acc k v (fun kv hkv => hdisj kv hkv (k, v) (by simp))]
    rw [ih (acc ++ [(k, v)]) hnodup.2 ?_]
    · simp
    · intro kv hkv kv' hkv'
      rcases List.mem_append.mp hkv with h1 | h1
      · exact hdisj kv h1 kv' (by simp [hkv'])
      · simp at h1
        subst h1
        intro hcon
        have h2 := hnodup.1
        simp only [Bool.not_eq_true', List.any_eq_false, decide_eq_true_eq] at h2
        exact h2 kv' hkv' hcon.symm

theorem resolveFields_all_unused : ∀ (df : List (String × JSON)) (oldC defC : JSON),
    (∀ kv ∈ df, jsGet oldC kv.1 = .ok none) →
    (∀ kv ∈ df, jsGet defC kv.1 = .ok none) →
    resolveFields false true "" df oldC defC
      = .ok (df, ⟨df.map Prod.fst, df.map Prod.fst, []⟩) := by
  intro df
  induction df with
  | nil => intro oldC defC h1 h2; simp [resolveFields]
  | cons hd t ih =>
    intro oldC defC hold hdef
    obtain ⟨k, v⟩ := hd
    have h1 : jsGet oldC k = .ok none := hold (k, v) (by simp)
    have h2 : jsGet defC k = .ok none := hdef (k, v) (by simp)
    have ht := typeOfVal_ne_undefined v
    simp only [resolveFields, h1, h2,
      ih oldC defC (fun kv hkv => hold kv (by simp [hkv]))
        (fun kv hkv => hdef kv (by simp [hkv]))]
    simp [typeOfOpt, VWalk.append, Ne.symm ht]

/-- C1: a store over a file previously containing
`{"DB":{"host":"127.0.0.1"}}`, asked for `configSection("DB",
{host:"localhost", port:27017})`, returns `{host:"127.0.0.1", port:27017}` —
the key present in storage keeps its stored value and the default key
missing from storage is filled in — and the resulting state persists the
merged value at the path `DB` on disk. -/
theorem configSection_stored_overrides_win :
    configSection (mkConfigManager (.valid docDB)) "DB" dfltDB
      = .ok ({ created := false, oldConfig := docDB,
               config := some (.obj [("DB", mergedDB)]),
               defaultConfig := .obj [("DB", dfltDB)], loadError := false,
               disk := .valid (.obj [("DB", mergedDB)]) }, some mergedDB)
    ∧ getKey [("host", JSON.str "127.0.0.1"), ("port", JSON.num 27017)] "host"
        = some (.str "127.0.0.1")
    ∧ getKey [("host", JSON.str "127.0.0.1"), ("port", JSON.num 27017)] "port"
        = some (.num 27017) := by
  decide

/-- C2: the path `"A B"` does not match the character class
`[A-Za-z0-9_-.]+` in full (the space is outside the class), yet
`validatePath` accepts it without any error: the regex
`/[a-z0-9_\-.]+/gi` is unanchored, so the `InvalidPathCharacter` error fires
only when the path contains *no* character of the class at all. This
contradicts the code's own doc comment ("Paths can have lower- and uppercase
alphanumeric chars, dashes and underscores"), so the code, not the claim, is
wrong. -/
theorem validatePath_accepts_space_path :
    ("A B".toList.all isPathChar = false)
    ∧ validatePath "A B" = .ok ()
    ∧ validatePath "@ !" = .error (.invalidPathCharacter "@ !") := by
  decide

/-- C3: constructing a store over an existing file with unparsable contents
does not throw — the constructor is total and records the parse failure on
`configFileLoadingError` — but the store does *not* continue operating on an
empty in-memory document: the `config` field is left `undefined` (it has no
initializer, unlike its siblings), so a subsequent `getOrCreateConfigPath`,
`configSection` or `updateConfigPath` with a non-empty path raises a
`TypeError` instead of behaving as on an empty document, which succeeds. -/
theorem parse_failure_leaves_document_undefined :
    (mkConfigManager .invalid).loadError = true
    ∧ (mkConfigManager .invalid).config = none
    ∧ getOrCreateConfigPath (mkConfigManager .invalid) "X" = .error .typeError
    ∧ configSection (mkConfigManager .invalid) "X" (.obj [("a", .num 1)])
        = .error .typeError
    ∧ updateConfigPath (mkConfigManager .invalid) "X" (.obj [("a", .num 1)])
        = .error .typeError
    ∧ configSection (mkConfigManager .absent) "X" (.obj [("a", .num 1)])
        = .ok ({ created := true, oldConfig := .obj [],
                 config := some (.obj [("X", .obj [("a", .num 1)])]),
                 defaultConfig := .obj [("X", .obj [("a", .num 1)])],
                 loadError := false,
                 disk := .valid (.obj [("X", .obj [("a", .num 1)])]) },
               some (.obj [("a", .num 1)])) := by
  decide

/-- C7: deep-merge precedence on the specification's three examples —
later-source scalars win (`merge({a:1,b:2},{b:3}) = {a:1,b:3}`), nested
mappings merge recursively (`merge({a:{x:1,y:2}},{a:{y:3}}) =
{a:{x:1,y:3}}`), and arrays are replaced wholesale, never merged
element-wise (`merge({a:[1,2]},{a:[3]}) = {a:[3]}`). -/
theorem merge_precedence_examples :
    mergeConfigsMany (.obj [("a", .num 1), ("b", .num 2)]) [.obj [("b", .num 3)]]
      = .obj [("a", .num 1), ("b", .num 3)]
    ∧ mergeConfigsMany (.obj [("a", .obj [("x", .num 1), ("y", .num 2)])])
        [.obj [("a", .obj [("y", .num 3)])]]
      = .obj [("a", .obj [("x", .num 1), ("y", .num 3)])]
    ∧ mergeConfigsMany (.obj [("a", .arr [.num 1, .num 2])]) [.obj [("a", .arr [.num 3])]]
      = .obj [("a", .arr [.num 3])] := by
  decide

/-- C6 counterexample: `merge({a:5}, {a:{x:1}})` leaves `{a:5}` — the source
mapping does *not* replace the prior non-mapping value at the key, because
the guard `if (!target[key])` only replaces a *falsy* target value by `{}`,
and the recursive `mergeConfigs(5, {x:1})` is a no-op on a non-object
target. This refutes the claim that a source mapping always ends up merged
at the key regardless of what the target previously held. -/
theorem merge_truthy_scalar_survives_source_mapping :
    mergeConfigs (.obj [("a", .num 5)]) (.obj [("a", .obj [("x", .num 1)])])
      = .obj [("a", .num 5)]
    ∧ isObject (.num 5) = false := by decide

/-- C6 (amended): when the source's value at a key is a plain mapping, the
outcome depends on the target's current value at that key: a *truthy
non-mapping* (non-zero number, non-empty string, `true`, or an array)
survives unchanged — the source mapping is silently dropped; a mapping is
recursively merged in place; a falsy value (absent, `null`, `0`, `""`,
`false`) is first replaced by `{}` into which the source mapping is then
merged. -/
theorem merge_source_mapping_cases (tf : List (String × JSON)) (k : String) (sv : JSON)
    (hsv : isObject sv = true) :
    (∀ tv, getKey tf k = some tv → truthy tv = true → isObject tv = false →
        mergeConfigs (.obj tf) (.obj [(k, sv)]) = .obj tf)
    ∧ (∀ tv, getKey tf k = some tv → isObject tv = true →
        mergeConfigs (.obj tf) (.obj [(k, sv)])
          = .obj (setKey tf k (mergeConfigs tv sv)))
    ∧ (∀ tv, getKey tf k = some tv → truthy tv = false →
        mergeConfigs (.obj tf) (.obj [(k, sv)])
          = .obj (setKey tf k (mergeConfigs (.obj []) sv)))
    ∧ (getKey tf k = none →
        mergeConfigs (.obj tf) (.obj [(k, sv)])
          = .obj (setKey tf k (mergeConfigs (.obj []) sv))) := by
  refine ⟨?_, ?_, ?_, ?_⟩
  · intro tv hg ht hno
    rw [merge_single, if_pos hsv, hg]
    simp only [ht, if_true, mergeConfigs_nonobj tv sv hno, getKey_setKey_self tf k tv hg]
  · intro tv hg hobj
    rw [merge_single, if_pos hsv, hg]
    simp only [truthy_of_isObject tv hobj, if_true]
  · intro tv hg ht
    rw [merge_single, if_pos hsv, hg]
    simp only [ht, if_false, Bool.false_eq_true]
  · intro hg
    rw [merge_single, if_pos hsv, hg]

/-- Witness for the C6 amended theorem at concrete inputs. -/
theorem merge_source_mapping_cases_w :
    mergeConfigs (.obj [("a", JSON.num 5)]) (.obj [("a", JSON.obj [("x", JSON.num 1)])])
      = .obj [("a", JSON.num 5)] :=
  (merge_source_mapping_cases [("a", JSON.num 5)] "a" (JSON.obj [("x", JSON.num 1)])
    (by decide)).1 (JSON.num 5) (by decide) (by decide) (by decide)

/-- C5 counterexample: on a document `{X: null}`, `getOrCreateConfigPath`
with path `X` returns `null` and leaves the document unchanged — `null` is
*not* replaced by an empty mapping (its `typeof` is `"object"`), and the
returned value is not a mapping. This refutes the claim that every
non-mapping value (explicitly including `null` and arrays) is replaced by
`{}` and that a mapping is always returned. -/
theorem getOrCreate_leaves_null_in_place :
    getOrCreateConfigPath sNull "X" = .ok (sNull, some JSON.null)
    ∧ isObject JSON.null = false := by decide

/-- C5 (amended): `getOrCreate` descends the document one segment at a time
and replaces a value by an empty mapping exactly when `typeof` of the value
is not `"object"` — scalars and absent values are replaced, while `null`
and arrays (whose `typeof` is `"object"`) are left in place and may be
returned. Whenever the walk completes, the returned value is the value then
stored at the path (but need not be a mapping); on an empty document
`getOrCreate("X.Y")` produces `{X:{Y:{}}}` and returns the inner empty
mapping. -/
theorem getOrCreate_typeof_replacement :
    (∀ doc segs doc' v, getOrCreateWalk doc segs = .ok (doc', v) →
        getPath doc' segs = some v)
    ∧ (∀ fields p, typeOfOpt (getKey fields p) ≠ "object" →
        getOrCreateWalk (.obj fields) [p]
          = .ok (.obj (setKey fields p (.obj [])), .obj []))
    ∧ (∀ fields p v, getKey fields p = some v → typeOfVal v = "object" →
        getOrCreateWalk (.obj fields) [p] = .ok (.obj fields, v))
    ∧ getOrCreateWalk (.obj []) ["X", "Y"]
        = .ok (.obj [("X", .obj [("Y", .obj [])])], .obj []) := by
  refine ⟨fun doc segs => getOrCreateWalk_getPath segs doc, ?_, ?_, by decide⟩
  · intro fields p h
    cases hk : getKey fields p with
    | none => simp [getOrCreateWalk, hk]
    | some w =>
      rw [hk] at h
      simp only [typeOfOpt] at h
      simp [getOrCreateWalk, hk, h]
  · intro fields p v hk hv
    simp [getOrCreateWalk, hk, hv, getKey_setKey_self fields p v hk]

/-- Witness for the C5 amended theorem at concrete inputs. -/
theorem getOrCreate_typeof_replacement_w :
    getPath (.obj [("X", .obj [("Y", .obj [])])]) ["X", "Y"] = some (.obj [])
    ∧ getOrCreateWalk (.obj [("a", JSON.num 5)]) ["a"]
        = .ok (.obj [("a", .obj [])], .obj [])
    ∧ getOrCreateWalk (.obj [("X", JSON.null)]) ["X"]
        = .ok (.obj [("X", JSON.null)], JSON.null) :=
  ⟨getOrCreate_typeof_replacement.1 (.obj []) ["X", "Y"]
      (.obj [("X", .obj [("Y", .obj [])])]) (.obj []) (by decide),
   getOrCreate_typeof_replacement.2.1 [("a", JSON.num 5)] "a" (by decide),
   getOrCreate_typeof_replacement.2.2.1 [("X", JSON.null)] "X" JSON.null (by decide) (by decide)⟩

/-- C4 counterexample: `configSection("", {host:1})` on a fresh store
registers the defaults under the literal key `""` in the DefaultsTree
(`addDefaultConfig` wraps one layer per element of `"".split('.') = [""]`),
while `updateConfigPath` assigns the same defaults directly at the document
root. The DefaultsTree `{"": {host:1}}` is therefore *not* shaped like the
document `{host:1}`, and a subsequent `validateConfig` reports the
defaults' own key `host` under `unusedValues` — refuting the claim that the
empty path deep-merges defaults at the DefaultsTree root and that validate
reports none of the defaults' keys as unused. -/
theorem emptyPath_defaults_under_empty_key :
    configSection (mkConfigManager .absent) "" dfltR = .ok (sR, some dfltR)
    ∧ sR.defaultConfig = .obj [("", dfltR)]
    ∧ sR.config = some (.obj [("host", .num 1)])
    ∧ validateConfig sR false
        = .ok (sR, { created := .whole, wrongTypes := [], unusedValues := ["host"] }) := by
  decide

/-- C4 (amended): for every *non-empty* validated path, `addDefaultConfig`
registers the defaults by deep-merging the nested single-key chain
`nestChain (splitPath path) defaults` into the DefaultsTree — exactly the
chain `updateConfigPath` assigns into the document, as the second conjunct
shows on an empty document. For the *empty* path the two disagree:
`configSection("", defaults)` installs the defaults' top-level keys at the
document root but registers them under the literal key `""` in the
DefaultsTree, so a subsequent `validateConfig` reports every top-level
default key under `unusedValues`. -/
theorem addDefault_chain_empty_key_divergence :
    (∀ (s : ConfigState) (path : String) (defaults : JSON),
      validatePath path = .ok () →
      addDefaultConfig s path defaults
        = .ok { s with defaultConfig :=
            mergeConfigs s.defaultConfig (nestChain (splitPath path) defaults) })
    ∧ (∀ (s : ConfigState) (path : String) (v : JSON),
      path ≠ "" → validatePath path = .ok () → s.config = some (.obj []) →
      typeOfVal v = "object" →
      updateConfigPath s path v
        = .ok ({ s with
                 config := some (nestChain (splitPath path) v)
                 disk := .valid (nestChain (splitPath path) v) }, some v))
    ∧ (∀ df : List (String × JSON), df ≠ [] → keysNodupB df = true →
      (∀ kv ∈ df, kv.1 ≠ "") →
      configSection (mkConfigManager .absent) "" (.obj df)
          = .ok (emptyPathState df, some (.obj df))
      ∧ validateConfig (emptyPathState df) false
          = .ok (emptyPathState df,
              { created := .whole, wrongTypes := [],
                unusedValues := df.map Prod.fst })) := by
  refine ⟨?_, ?_, ?_⟩
  · intro s path defaults h
    simp [addDefaultConfig, h]
  · intro s path v hne hval hcfg htv
    obtain ⟨k, rest, hsegs⟩ : ∃ k rest, splitPath path = k :: rest := by
      cases hs : splitPath path with
      | nil => exact absurd hs (splitPath_ne_nil path)
      | cons k rest => exact ⟨k, rest, rfl⟩
    have h1 : getOrCreateConfigPath s path
        = .ok ({ s with config := some (nestChain (splitPath path) (.obj [])) },
               some (.obj [])) := by
      simp [getOrCreateConfigPath, if_neg hne, hval, hcfg, walk_empty]
    have h2 : getOrCreateConfigPath
        ({ s with
           config := some (nestChain (splitPath path) v)
           disk := .valid (nestChain (splitPath path) v) } : ConfigState) path
        = .ok ({ s with
                 config := some (nestChain (splitPath path) v)
                 disk := .valid (nestChain (splitPath path) v) }, some v) := by
      simp [getOrCreateConfigPath, if_neg hne, hval, walk_chain _ v htv]
    rw [hsegs] at h2
    simp only [nestChain] at h2
    simp only [updateConfigPath, h1, if_neg hne, hsegs]
    simp [nestChain, setKey, saveConfig, h2]
  · intro df hne hnodup hkeys
    have hobj : ¬ (some (JSON.obj []) = some (JSON.obj df)) := by
      intro h
      simp only [Option.some.injEq, JSON.obj.injEq] at h
      exact hne h.symm
    have hsplit : splitPath "" = [""] := rfl
    have hmergeD : mergeConfigs (.obj []) (.obj [("", JSON.obj df)])
        = .obj [("", mergeConfigs (.obj []) (.obj df))] := by
      simp [mergeConfigs, mergeFields, isObject, getKey, setKey]
    have hmergeV : mergeConfigs (.obj df) (.obj []) = .obj df := by
      simp [mergeConfigs, mergeFields]
    have hassign : objAssign (.obj []) (.obj df) = .ok (.obj df) := by
      simp only [objAssign]
      rw [foldl_setKey_nodup df [] hnodup (by simp)]
      simp
    have h0 : getOrCreateConfigPath (mkConfigManager .absent) ""
        = .ok (mkConfigManager .absent, some (.obj [])) := rfl
    have hadd1 : addDefaultConfig (mkConfigManager .absent) "" (.obj df)
        = .ok { created := true, oldConfig := .obj [], config := some (.obj []),
                defaultConfig := mergeConfigs (.obj []) (.obj [("", .obj df)]),
                loadError := false, disk := .absent } := rfl
    have hadd : addDefaultConfig (mkConfigManager .absent) "" (.obj df)
        = .ok { created := true, oldConfig := .obj [], config := some (.obj []),
                defaultConfig := .obj [("", mergeConfigs (.obj []) (.obj df))],
                loadError := false, disk := .absent } := hadd1.trans (by rw [hmergeD])
    have hupd : updateConfigPath
        ({ created := true, oldConfig := .obj [], config := some (.obj []),
           defaultConfig := .obj [("", mergeConfigs (.obj []) (.obj df))],
           loadError := false, disk := .absent } : ConfigState) "" (.obj df)
        = .ok (emptyPathState df, some (.obj df)) := by
      simp only [updateConfigPath, getOrCreateConfigPath, ite_true]
      rw [hassign]
      simp [saveConfig, emptyPathState]
    have hsection :
        configSection (mkConfigManager .absent) "" (.obj df)
          = .ok (emptyPathState df, some (.obj df)) := by
      simp only [configSection, h0]
      rw [if_neg hobj]
      simp only [hadd, truthy, ite_self, hmergeV, hupd]
    refine ⟨hsection, ?_⟩
    have hresolve := resolveFields_all_unused df (.obj [])
        (.obj [("", mergeConfigs (.obj []) (.obj df))])
        (fun kv hkv => by simp [jsGet, getKey])
        (fun kv hkv => by simp [jsGet, getKey, Ne.symm (hkeys kv hkv)])
    simp [validateConfig, emptyPathState, resolveVal, hresolve]

/-- Witness for the C4 amended theorem at concrete inputs. -/
theorem addDefault_chain_empty_key_divergence_w :
    updateConfigPath (mkConfigManager .absent) "X.Y" (.obj [("a", .num 1)])
      = .ok ({ mkConfigManager .absent with
               config := some (nestChain (splitPath "X.Y") (.obj [("a", .num 1)]))
               disk := .valid (nestChain (splitPath "X.Y") (.obj [("a", .num 1)])) },
             some (.obj [("a", .num 1)]))
    ∧ (configSection (mkConfigManager .absent) "" (.obj [("host", .num 1)])
        = .ok (emptyPathState [("host", .num 1)], some (.obj [("host", .num 1)]))
      ∧ validateConfig (emptyPathState [("host", .num 1)]) false
        = .ok (emptyPathState [("host", .num 1)],
            { created := .whole, wrongTypes := [],
              unusedValues := List.map Prod.fst [("host", JSON.num 1)] })) :=
  ⟨addDefault_chain_empty_key_divergence.2.1 (mkConfigManager .absent) "X.Y"
      (.obj [("a", .num 1)]) (by decide) (by decide) (by decide) (by decide),
   addDefault_chain_empty_key_divergence.2.2 [("host", .num 1)]
      (by decide) (by decide) (by decide)⟩

theorem getKey_of_nodup_mem : ∀ (fields : List (String × JSON)) (k : String) (v : JSON),
    keysNodupB fields = true → (k, v) ∈ fields → getKey fields k = some v := by
  intro fields
  induction fields with
  | nil => simp
  | cons hd t ih =>
    intro k v hnd hmem
    obtain ⟨k', v'⟩ := hd
    simp only [keysNodupB, Bool.and_eq_true] at hnd
    rcases List.mem_cons.mp hmem with h | h
    · obtain ⟨rfl, rfl⟩ : k' = k ∧ v' = v := by
        have := h.symm
        injection this with a b
        exact ⟨a, b⟩
      simp [getKey]
    · by_cases hk : k' = k
      · exfalso
        have h2 := hnd.1
        simp only [Bool.not_eq_true', List.any_eq_false, decide_eq_true_eq] at h2
        exact h2 (k, v) h hk.symm
      · simp [getKey, hk, ih k v hnd.2 h]

theorem wfFields_mem : ∀ (fields : List (String × JSON)) (kv : String × JSON),
    wfFields fields = true → kv ∈ fields → wfJSON kv.2 = true := by
  intro fields
  induction fields with
  | nil => simp
  | cons hd t ih =>
    intro kv hwf hmem
    obtain ⟨k', v'⟩ := hd
    simp only [wfFields, Bool.and_eq_true] at hwf
    rcases List.mem_cons.mp hmem with h | h
    · subst h; exact hwf.1
    · exact ih kv hwf.2 h

theorem mergeFields_self_aux : ∀ (sf tf : List (String × JSON)),
    (∀ kv ∈ sf, getKey tf kv.1 = some kv.2) →
    (∀ kv ∈ sf, mergeConfigs kv.2 kv.2 = kv.2) →
    mergeFields tf sf = tf := by
  intro sf
  induction sf with
  | nil => intro tf _ _; simp [mergeFields]
  | cons hd rest ih =>
    intro tf hget hmerge
    obtain ⟨k, sv⟩ := hd
    have hg : getKey tf k = some sv := hget (k, sv) (by simp)
    have hm : mergeConfigs sv sv = sv := hmerge (k, sv) (by simp)
    have htl := ih tf (fun kv hkv => hget kv (by simp [hkv]))
      (fun kv hkv => hmerge kv (by simp [hkv]))
    by_cases hobj : isObject sv = true
    · simp only [mergeFields, hobj, if_true, hg, truthy_of_isObject sv hobj, hm,
        getKey_setKey_self tf k sv hg]
      exact htl
    · simp only [mergeFields, hobj, if_false, getKey_setKey_self tf k sv hg, Bool.false_eq_true]
      exact htl

theorem merge_self_aux : ∀ (n : Nat) (X : JSON), sizeOf X ≤ n → wfJSON X = true →
    mergeConfigs X X = X := by
  intro n
  induction n using Nat.strong_induction_on with
  | _ n ih =>
    intro X hsz hwf
    cases X with
    | obj fields =>
      simp only [wfJSON, Bool.and_eq_true] at hwf
      have hself : mergeFields fields fields = fields := by
        apply mergeFields_self_aux fields fields
        · intro kv hkv
          exact getKey_of_nodup_mem fields kv.1 kv.2 hwf.1 (by simpa using hkv)
        · intro kv hkv
          have hlt : sizeOf kv.2 < n := by
            have h1 := List.sizeOf_lt_of_mem hkv
            have h2 : sizeOf kv.2 < sizeOf kv := by
              obtain ⟨a, b⟩ := kv
              simp only [Prod.mk.sizeOf_spec]
              omega
            simp only [JSON.obj.sizeOf_spec] at hsz
            omega
          exact ih (sizeOf kv.2) hlt kv.2 le_rfl (wfFields_mem fields kv hwf.2 hkv)
      simp [mergeConfigs, hself]
    | null => exact mergeConfigs_nonobj _ _ rfl
    | bool b => exact mergeConfigs_nonobj _ _ rfl
    | num m => exact mergeConfigs_nonobj _ _ rfl
    | str s => exact mergeConfigs_nonobj _ _ rfl
    | arr xs => exact mergeConfigs_nonobj _ _ rfl

/-- C8: deep merge is idempotent — for every JSON tree `X` (well-formed in
the sense that no object level carries duplicate keys, which is automatic
for any value produced by `JSON.parse`), merging `X` into a deep copy of
`X` yields `X` itself. In this value-level model a deep copy of `X` is `X`. -/
theorem merge_idempotent (X : JSON) (h : wfJSON X = true) : mergeConfigs X X = X :=
  merge_self_aux (sizeOf X) X le_rfl h

/-- Witness for C8 at a concrete nested tree. -/
theorem merge_idempotent_w :
    wfJSON (.obj [("a", .num 1), ("b", .obj [("c", .str "x"), ("d", .arr [.num 2])])]) = true
    ∧ mergeConfigs (.obj [("a", .num 1), ("b", .obj [("c", .str "x"), ("d", .arr [.num 2])])])
        (.obj [("a", .num 1), ("b", .obj [("c", .str "x"), ("d", .arr [.num 2])])])
      = .obj [("a", .num 1), ("b", .obj [("c", .str "x"), ("d", .arr [.num 2])])] :=
  ⟨by decide,
   merge_idempotent (.obj [("a", .num 1), ("b", .obj [("c", .str "x"), ("d", .arr [.num 2])])])
     (by decide)⟩

theorem setKey_idem (f : List (String × JSON)) (k : String) (v : JSON) :
    setKey (setKey f k v) k v = setKey f k v :=
  getKey_setKey_self _ _ _ (getKey_setKey f k v)

theorem getPath_nestChain : ∀ (segs : List String) (v : JSON),
    getPath (nestChain segs v) segs = some v := by
  intro segs
  induction segs with
  | nil => intro v; simp [nestChain, getPath]
  | cons p rest ih => intro v; simp [nestChain, getPath, getKey, ih]

theorem walk_doc_typeof (segs : List String) (doc doc' v : JSON)
    (h : getOrCreateWalk doc segs = .ok (doc', v)) (ht : typeOfVal doc = "object") :
    typeOfVal doc' = "object" := by
  cases segs with
  | nil =>
    simp only [getOrCreateWalk, Except.ok.injEq, Prod.mk.injEq] at h
    rw [← h.1]
    exact ht
  | cons p rest =>
    cases doc <;> simp only [getOrCreateWalk] at h <;> try simp_all
    case obj fields =>
      cases hw : getOrCreateWalk
          (match getKey fields p with
           | some w => if typeOfVal w = "object" then w else .obj []
           | none => .obj []) rest with
      | error e => rw [hw] at h; simp at h
      | ok pr =>
        rw [hw] at h
        simp only [Except.ok.injEq, Prod.mk.injEq] at h
        rw [← h.1]
        rfl

theorem guard_typeof (fields : List (String × JSON)) (p : String) :
    typeOfVal
      (match getKey fields p with
       | some w => if typeOfVal w = "object" then w else .obj []
       | none => .obj []) = "object" := by
  cases hk : getKey fields p with
  | none => rfl
  | some w =>
    show typeOfVal (if typeOfVal w = "object" then w else JSON.obj []) = "object"
    by_cases ht : typeOfVal w = "object"
    · simp [ht]
    · rw [if_neg ht]
      rfl

theorem walk_idem : ∀ (segs : List String) (doc doc' v : JSON),
    getOrCreateWalk doc segs = .ok (doc', v) →
    getOrCreateWalk doc' segs = .ok (doc', v) := by
  intro segs
  induction segs with
  | nil =>
    intro doc doc' v h
    simp only [getOrCreateWalk, Except.ok.injEq, Prod.mk.injEq] at h
    obtain ⟨rfl, rfl⟩ := h
    cases doc <;> rfl
  | cons p rest ih =>
    intro doc doc' v h
    cases doc <;> simp only [getOrCreateWalk] at h <;> try simp_all
    case obj fields =>
      cases hw : getOrCreateWalk
          (match getKey fields p with
           | some w => if typeOfVal w = "object" then w else .obj []
           | none => .obj []) rest with
      | error e => rw [hw] at h; simp at h
      | ok pr =>
        obtain ⟨child', v'⟩ := pr
        rw [hw] at h
        simp only [Except.ok.injEq, Prod.mk.injEq] at h
        obtain ⟨hdoc, hv⟩ := h
        subst hdoc; subst hv
        have hto : typeOfVal child' = "object" :=
          walk_doc_typeof rest _ child' v' hw (guard_typeof fields p)
        simp only [getOrCreateWalk, getKey_setKey, hto, ite_true, ih _ _ _ hw,
          setKey_idem]

/-- C10: on a valid non-empty path where the reference-identity fast path
does not fire (the structural inequality `root ≠ defaults` implies the
reference inequality the JS guard tests), `configSection` returns exactly
`mergeConfigs defaults (root || {})` — the deep merge writes the stored
overrides into (the value of) the caller's defaults object — and that same
merged value is the one installed in the Document at the path and persisted
to disk: the returned value, the Document's subtree at the path, and the
persisted document's subtree all coincide with the merged result. In this
value-level model the in-place mutation of the `defaults` argument is
expressed by the fact that the single value `mergeConfigs defaults (root
|| {})` plays all three roles. -/
theorem configSection_returns_installed_merge
    (s : ConfigState) (path : String) (defaults : JSON) (cf : List (String × JSON))
    (c1 root : JSON)
    (hne : path ≠ "") (hval : validatePath path = .ok ())
    (hcfg : s.config = some (.obj cf))
    (hwalk : getOrCreateWalk (.obj cf) (splitPath path) = .ok (c1, root))
    (hfast : root ≠ defaults)
    (hobj : isObject defaults = true) :
    ∃ (s' : ConfigState) (c' : JSON),
      configSection s path defaults
        = .ok (s', some (mergeConfigs defaults (if truthy root then root else .obj [])))
      ∧ s'.config = some c'
      ∧ getPath c' (splitPath path)
          = some (mergeConfigs defaults (if truthy root then root else .obj []))
      ∧ s'.disk = .valid c' := by
  obtain ⟨k, rest, hsegs⟩ : ∃ k rest, splitPath path = k :: rest := by
    cases hs : splitPath path with
    | nil => exact absurd hs (splitPath_ne_nil path)
    | cons k rest => exact ⟨k, rest, rfl⟩
  rw [hsegs] at hwalk
  rw [hsegs]
  obtain ⟨df, hdf⟩ : ∃ df, defaults = .obj df := by
    cases defaults with
    | obj df => exact ⟨df, rfl⟩
    | null => simp [isObject] at hobj
    | bool b => simp [isObject] at hobj
    | num n => simp [isObject] at hobj
    | str t => simp [isObject] at hobj
    | arr xs => simp [isObject] at hobj
  obtain ⟨f1, hc1⟩ : ∃ f1, c1 = .obj f1 := by
    simp only [getOrCreateWalk] at hwalk
    cases hw : getOrCreateWalk
        (match getKey cf k with
         | some w => if typeOfVal w = "object" then w else .obj []
         | none => .obj []) rest with
    | error e => rw [hw] at hwalk; simp at hwalk
    | ok pr =>
      obtain ⟨child', v'⟩ := pr
      rw [hw] at hwalk
      simp only [Except.ok.injEq, Prod.mk.injEq] at hwalk
      exact ⟨_, hwalk.1.symm⟩
  subst hc1
  have hMobj : typeOfVal (mergeConfigs defaults (if truthy root then root else .obj []))
      = "object" := by
    subst hdf
    cases hsrc : (if truthy root then root else JSON.obj []) <;>
      simp [mergeConfigs, typeOfVal]
  set M := mergeConfigs defaults (if truthy root then root else .obj []) with hM
  have h1 : getOrCreateConfigPath s path
      = .ok ({ s with config := some (.obj f1) }, some root) := by
    simp [getOrCreateConfigPath, if_neg hne, hval, hcfg, hsegs, hwalk]
  have hfast2 : ¬ (some root = some defaults) := by simpa using hfast
  have hadd : addDefaultConfig ({ s with config := some (.obj f1) } : ConfigState)
      path defaults
      = .ok { s with
              config := some (.obj f1)
              defaultConfig :=
                mergeConfigs s.defaultConfig (nestChain (k :: rest) defaults) } := by
    simp [addDefaultConfig, hval, hsegs]
  have h2 : getOrCreateConfigPath
      ({ s with
         config := some (.obj f1)
         defaultConfig :=
           mergeConfigs s.defaultConfig (nestChain (k :: rest) defaults) } : ConfigState)
      path
      = .ok ({ s with
               config := some (.obj f1)
               defaultConfig :=
                 mergeConfigs s.defaultConfig (nestChain (k :: rest) defaults) },
             some root) := by
    simp [getOrCreateConfigPath, if_neg hne, hval, hsegs, walk_idem _ _ _ _ hwalk]
  have h3 : getOrCreateWalk (.obj (setKey f1 k (nestChain rest M))) (k :: rest)
      = .ok (.obj (setKey f1 k (nestChain rest M)), M) := by
    simp only [getOrCreateWalk, getKey_setKey, typeOf_nestChain rest M hMobj, ite_true,
      walk_chain rest M hMobj, setKey_idem]
  have hupd : updateConfigPath
      ({ s with
         config := some (.obj f1)
         defaultConfig :=
           mergeConfigs s.defaultConfig (nestChain (k :: rest) defaults) } : ConfigState)
      path M
      = .ok ({ s with
               config := some (.obj (setKey f1 k (nestChain rest M)))
               defaultConfig :=
                 mergeConfigs s.defaultConfig (nestChain (k :: rest) defaults)
               disk := .valid (.obj (setKey f1 k (nestChain rest M))) },
             some M) := by
    simp only [updateConfigPath, h2, if_neg hne, hsegs]
    simp only [setKey, saveConfig]
    simp only [getOrCreateConfigPath, if_neg hne, hval, hsegs, h3]
  refine ⟨{ s with
            config := some (.obj (setKey f1 k (nestChain rest M)))
            defaultConfig := mergeConfigs s.defaultConfig (nestChain (k :: rest) defaults)
            disk := .valid (.obj (setKey f1 k (nestChain rest M))) },
          .obj (setKey f1 k (nestChain rest M)), ?_, rfl, ?_, rfl⟩
  · simp only [configSection, h1]
    rw [if_neg hfast2]
    simp only [hadd, hupd]
  · simp [getPath, getKey_setKey, getPath_nestChain]

/-- Witness for C10 at the concrete second-store scenario. -/
theorem configSection_returns_installed_merge_w :
    ∃ (s' : ConfigState) (c' : JSON),
      configSection (mkConfigManager (.valid docDB)) "DB" dfltDB
        = .ok (s', some (mergeConfigs dfltDB
            (if truthy (.obj [("host", .str "127.0.0.1")])
             then .obj [("host", .str "127.0.0.1")] else .obj [])))
      ∧ s'.config = some c'
      ∧ getPath c' (splitPath "DB")
          = some (mergeConfigs dfltDB
              (if truthy (.obj [("host", .str "127.0.0.1")])
               then .obj [("host", .str "127.0.0.1")] else .obj []))
      ∧ s'.disk = .valid c' :=
  configSection_returns_installed_merge (mkConfigManager (.valid docDB)) "DB" dfltDB
    [("DB", .obj [("host", .str "127.0.0.1")])] docDB (.obj [("host", .str "127.0.0.1")])
    (by decide) (by decide) (by decide) (by decide) (by decide) (by decide)

theorem lockstepUnused_nil (c d : JSON) : lockstepUnused c d [] = false := by
  cases c <;> cases d <;> rfl

theorem lockstepPresent_nil (c d : JSON) : lockstepPresent c d [] = false := by
  cases c <;> cases d <;> rfl

theorem joinDots_cons (k k2 : String) (rest : List String) :
    joinDots (k :: k2 :: rest) = k ++ "." ++ joinDots (k2 :: rest) := rfl

theorem resolveFields_cons_ok (clear flag : Bool) (pfx k' : String) (v' : JSON)
    (t : List (String × JSON)) (oldC defC : JSON) (out : List (String × JSON)) (w : VWalk)
    (hrun : resolveFields clear flag pfx ((k', v') :: t) oldC defC = .ok (out, w)) :
    ∃ (oldv defv : Option JSON) (rest' : List (String × JSON)) (wr : VWalk),
      jsGet oldC k' = .ok oldv ∧ jsGet defC k' = .ok defv ∧
      resolveFields clear flag pfx t oldC defC = .ok (rest', wr) ∧
      ((typeOfOpt defv = typeOfVal v' ∧ typeOfVal v' = "object" ∧
          ∃ (dv v'' : JSON) (wk : VWalk), defv = some dv ∧
            resolveVal clear false (if flag then k' else pfx ++ "." ++ k') v'
              (oldGuard oldv) dv = .ok (v'', wk) ∧
            out = (k', v'') :: rest' ∧
            w.unusedValues = wk.unusedValues ++ wr.unusedValues)
       ∨ (typeOfOpt defv = typeOfVal v' ∧ typeOfVal v' ≠ "object" ∧
            out = (k', v') :: rest' ∧ w.unusedValues = wr.unusedValues)
       ∨ (defv = none ∧
            out = (if clear = true then rest' else (k', v') :: rest') ∧
            w.unusedValues = (if flag then k' else pfx ++ "." ++ k') :: wr.unusedValues)
       ∨ (typeOfOpt defv ≠ typeOfVal v' ∧ defv ≠ none ∧
            out = (k', v') :: rest' ∧ w.unusedValues = wr.unusedValues)) := by
  simp only [resolveFields] at hrun
  cases hold : jsGet oldC k' with
  | error e => rw [hold] at hrun; simp at hrun
  | ok oldv =>
    rw [hold] at hrun
    cases hdef : jsGet defC k' with
    | error e => rw [hdef] at hrun; simp at hrun
    | ok defv =>
      rw [hdef] at hrun
      simp only [] at hrun
      refine ⟨oldv, defv, ?_⟩
      by_cases heq : typeOfOpt defv = typeOfVal v'
      · by_cases hto : typeOfVal v' = "object"
        · rw [if_pos heq, if_pos hto] at hrun
          obtain ⟨dv, hdv⟩ : ∃ dv, defv = some dv := by
            cases defv with
            | none =>
              rw [heq.symm] at hto
              exact absurd hto (by decide)
            | some d => exact ⟨d, rfl⟩
          subst hdv
          cases hrec : resolveVal clear false (if flag then k' else pfx ++ "." ++ k') v'
              (oldGuard oldv) dv with
          | error e => rw [hrec] at hrun; simp at hrun
          | ok pr =>
            obtain ⟨v'', wk⟩ := pr
            rw [hrec] at hrun
            cases hrest : resolveFields clear flag pfx t oldC defC with
            | error e => rw [hrest] at hrun; simp at hrun
            | ok pr2 =>
              obtain ⟨rest', wr⟩ := pr2
              rw [hrest] at hrun
              simp only [Except.ok.injEq, Prod.mk.injEq] at hrun
              refine ⟨rest', wr, rfl, rfl, rfl, ?_⟩
              refine Or.inl ⟨heq, hto, dv, v'', wk, rfl, hrec, hrun.1.symm, ?_⟩
              rw [← hrun.2]
              simp [VWalk.append]
        · rw [if_pos heq, if_neg hto] at hrun
          cases hrest : resolveFields clear flag pfx t oldC defC with
          | error e => rw [hrest] at hrun; simp at hrun
          | ok pr2 =>
            obtain ⟨rest', wr⟩ := pr2
            rw [hrest] at hrun
            simp only [Except.ok.injEq, Prod.mk.injEq] at hrun
            refine ⟨rest', wr, rfl, rfl, rfl, Or.inr (Or.inl ⟨heq, hto, hrun.1.symm, ?_⟩)⟩
            rw [← hrun.2]
            simp [VWalk.append]
      · by_cases hun : typeOfOpt defv = "undefined"
        · have hdefv : defv = none := by
            cases defv with
            | none => rfl
            | some d => exact absurd hun (by simpa [typeOfOpt] using typeOfVal_ne_undefined d)
          rw [if_neg heq, if_pos hun] at hrun
          cases hrest : resolveFields clear flag pfx t oldC defC with
          | error e => rw [hrest] at hrun; simp at hrun
          | ok pr2 =>
            obtain ⟨rest', wr⟩ := pr2
            rw [hrest] at hrun
            simp only [Except.ok.injEq, Prod.mk.injEq] at hrun
            refine ⟨rest', wr, rfl, rfl, rfl, Or.inr (Or.inr (Or.inl ⟨hdefv, ?_, ?_⟩))⟩
            · rw [← hrun.1]
            · rw [← hrun.2]
              simp [VWalk.append]
        · have hdefv : defv ≠ none := by
            intro h
            subst h
            exact hun rfl
          rw [if_neg heq, if_neg hun] at hrun
          cases hrest : resolveFields clear flag pfx t oldC defC with
          | error e => rw [hrest] at hrun; simp at hrun
          | ok pr2 =>
            obtain ⟨rest', wr⟩ := pr2
            rw [hrest] at hrun
            simp only [Except.ok.injEq, Prod.mk.injEq] at hrun
            refine ⟨rest', wr, rfl, rfl, rfl, Or.inr (Or.inr (Or.inr ⟨heq, hdefv, hrun.1.symm, ?_⟩))⟩
            rw [← hrun.2]
            simp [VWalk.append]

theorem typeOf_of_isObject (v : JSON) (h : isObject v = true) : typeOfVal v = "object" := by
  cases v <;> simp_all [isObject, typeOfVal]

theorem isObject_obj (v : JSON) (h : isObject v = true) : ∃ f, v = .obj f := by
  cases v <;> simp_all [isObject]

theorem resolveFields_keys_sub : ∀ (fields : List (String × JSON)) (clear flag : Bool)
    (pfx : String) (oldC defC : JSON) (out : List (String × JSON)) (w : VWalk) (key : String),
    resolveFields clear flag pfx fields oldC defC = .ok (out, w) →
    getKey fields key = none → getKey out key = none := by
  intro fields
  induction fields with
  | nil =>
    intro clear flag pfx oldC defC out w key hrun hnone
    simp only [resolveFields, Except.ok.injEq, Prod.mk.injEq] at hrun
    rw [← hrun.1]
    exact hnone
  | cons hd t ih =>
    intro clear flag pfx oldC defC out w key hrun hnone
    obtain ⟨k', v'⟩ := hd
    have hk : ¬ (k' = key) := by
      intro h
      simp [getKey, h] at hnone
    have hnt : getKey t key = none := by
      simpa [getKey, hk] using hnone
    obtain ⟨oldv, defv, rest', wr, _, _, hrest, hbr⟩ :=
      resolveFields_cons_ok clear flag pfx k' v' t oldC defC out w hrun
    have hrt := ih clear flag pfx oldC defC rest' wr key hrest hnt
    rcases hbr with ⟨_, _, _, _, _, _, _, hout, _⟩ | ⟨_, _, hout, _⟩ | ⟨_, hout, _⟩ | ⟨_, _, hout, _⟩
    · rw [hout]; simpa [getKey, hk] using hrt
    · rw [hout]; simpa [getKey, hk] using hrt
    · rw [hout]
      by_cases hc : clear = true
      · simpa [hc] using hrt
      · simp only [hc, if_false, Bool.false_eq_true]
        simpa [getKey, hk] using hrt
    · rw [hout]; simpa [getKey, hk] using hrt

theorem getPath_single (l : List (String × JSON)) (k : String) :
    getPath (.obj l) [k] = getKey l k := by
  cases h : getKey l k <;> simp [getPath, h]

theorem resolveFields_lockstep : ∀ (segs : List String) (fields : List (String × JSON))
    (clear flag : Bool) (pfx : String) (oldC defC : JSON)
    (out : List (String × JSON)) (w : VWalk),
    resolveFields clear flag pfx fields oldC defC = .ok (out, w) →
    ((lockstepUnused (.obj fields) defC segs = true →
        (if flag then joinDots segs else pfx ++ "." ++ joinDots segs) ∈ w.unusedValues
        ∧ (clear = true → getPath (.obj out) segs = none))
     ∧ (lockstepPresent (.obj fields) defC segs = true →
        ∃ v', getPath (.obj out) segs = some v')) := by
  intro segs
  induction segs with
  | nil =>
    intro fields clear flag pfx oldC defC out w hrun
    constructor
    · intro h; rw [lockstepUnused_nil] at h; cases h
    · intro h; rw [lockstepPresent_nil] at h; cases h
  | cons k rest ihseg =>
    cases rest with
    | nil =>
      intro fields clear flag pfx oldC defC
      induction fields with
      | nil =>
        intro out w hrun
        constructor
        · intro h
          exfalso
          cases defC <;> simp [lockstepUnused, getKey] at h
        · intro h
          exfalso
          cases defC <;> simp [lockstepPresent, getKey] at h
      | cons hd t iht =>
        intro out w hrun
        obtain ⟨k', v'⟩ := hd
        obtain ⟨oldv, defv, rest', wr, hold, hdef, hrest, hbr⟩ :=
          resolveFields_cons_ok clear flag pfx k' v' t oldC defC out w hrun
        constructor
        · intro h
          obtain ⟨df, rfl⟩ : ∃ df, defC = .obj df := by
            cases defC with
            | obj df => exact ⟨df, rfl⟩
            | null => simp [lockstepUnused] at h
            | bool b => simp [lockstepUnused] at h
            | num n => simp [lockstepUnused] at h
            | str u => simp [lockstepUnused] at h
            | arr xs => simp [lockstepUnused] at h
          have hdef' : defv = getKey df k' := by
            simpa [jsGet] using hdef.symm
          by_cases hk : k' = k
          · subst hk
            have hsome : (getKey ((k', v') :: t) k').isSome = true
                ∧ (getKey df k').isNone = true := by
              simpa [lockstepUnused, Bool.and_eq_true] using h
            have hnone : getKey df k' = none := by
              simpa [Option.isNone_iff_eq_none] using hsome.2
            rw [hnone] at hdef'
            rcases hbr with ⟨_, _, _, _, _, hdv, _, _, _⟩ | ⟨hB1, _, _, _⟩
              | ⟨_, hout, hw⟩ | ⟨_, hD, _, _⟩
            · rw [hdef'] at hdv; cases hdv
            · rw [hdef'] at hB1
              exact absurd hB1.symm (typeOfVal_ne_undefined v')
            · constructor
              · rw [hw]
                simp [joinDots]
              · intro hc
                rw [hout]
                simp only [hc, if_true, ite_true]
                rw [getPath_single]
                cases hkt : getKey t k' with
                | none =>
                  exact resolveFields_keys_sub t clear flag pfx oldC (.obj df)
                    rest' wr k' hrest hkt
                | some v2 =>
                  have hlk : lockstepUnused (.obj t) (.obj df) [k'] = true := by
                    simp [lockstepUnused, hkt, hnone]
                  have hres := ((iht rest' wr hrest).1 hlk).2 hc
                  rwa [getPath_single] at hres
            · rw [hdef'] at hD
              exact absurd rfl hD
          · have h' : lockstepUnused (.obj t) (.obj df) [k] = true := by
              simpa [lockstepUnused, getKey, hk] using h
            have iht' := (iht rest' wr hrest).1 h'
            have ihm := iht'.1
            rw [getPath_single] at iht' ⊢
            constructor
            · rcases hbr with ⟨_, _, _, _, _, _, _, hout, hw⟩ | ⟨_, _, hout, hw⟩
                | ⟨_, hout, hw⟩ | ⟨_, _, hout, hw⟩ <;> rw [hw] <;> simp [ihm]
            · intro hc
              have hnone' := iht'.2 hc
              rcases hbr with ⟨_, _, _, _, _, _, _, hout, _⟩ | ⟨_, _, hout, _⟩
                | ⟨_, hout, _⟩ | ⟨_, _, hout, _⟩
              · rw [hout]; simpa [getKey, hk] using hnone'
              · rw [hout]; simpa [getKey, hk] using hnone'
              · rw [hout]
                by_cases hcl : clear = true
                · simpa [hcl] using hnone'
                · simp only [hcl, if_false, Bool.false_eq_true]
                  simpa [getKey, hk] using hnone'
              · rw [hout]; simpa [getKey, hk] using hnone'
        · intro h
          obtain ⟨df, rfl⟩ : ∃ df, defC = .obj df := by
            cases defC with
            | obj df => exact ⟨df, rfl⟩
            | null => simp [lockstepPresent] at h
            | bool b => simp [lockstepPresent] at h
            | num n => simp [lockstepPresent] at h
            | str u => simp [lockstepPresent] at h
            | arr xs => simp [lockstepPresent] at h
          have hdef' : defv = getKey df k' := by
            simpa [jsGet] using hdef.symm
          by_cases hk : k' = k
          · subst hk
            have hsome : (getKey ((k', v') :: t) k').isSome = true
                ∧ (getKey df k').isSome = true := by
              simpa [lockstepPresent, Bool.and_eq_true] using h
            obtain ⟨d0, hd0⟩ := Option.isSome_iff_exists.mp hsome.2
            rw [hd0] at hdef'
            rw [getPath_single]
            rcases hbr with ⟨_, _, _, v'', _, _, _, hout, _⟩ | ⟨_, _, hout, _⟩
              | ⟨hC, _, _⟩ | ⟨_, _, hout, _⟩
            · exact ⟨v'', by simp [hout, getKey]⟩
            · exact ⟨v', by simp [hout, getKey]⟩
            · rw [hdef'] at hC; cases hC
            · exact ⟨v', by simp [hout, getKey]⟩
          · have h' : lockstepPresent (.obj t) (.obj df) [k] = true := by
              simpa [lockstepPresent, getKey, hk] using h
            obtain ⟨v2, hv2⟩ := (iht rest' wr hrest).2 h'
            rw [getPath_single] at hv2 ⊢
            rcases hbr with ⟨_, _, _, _, _, _, _, hout, _⟩ | ⟨_, _, hout, _⟩
              | ⟨_, hout, _⟩ | ⟨_, _, hout, _⟩
            · exact ⟨v2, by rw [hout]; simpa [getKey, hk] using hv2⟩
            · exact ⟨v2, by rw [hout]; simpa [getKey, hk] using hv2⟩
            · refine ⟨v2, ?_⟩
              rw [hout]
              by_cases hcl : clear = true
              · simpa [hcl] using hv2
              · simp only [hcl, if_false, Bool.false_eq_true]
                simpa [getKey, hk] using hv2
            · exact ⟨v2, by rw [hout]; simpa [getKey, hk] using hv2⟩
    | cons r2 rs =>
      intro fields clear flag pfx oldC defC
      induction fields with
      | nil =>
        intro out w hrun
        constructor
        · intro h
          exfalso
          cases defC <;> simp [lockstepUnused, getKey] at h
        · intro h
          exfalso
          cases defC <;> simp [lockstepPresent, getKey] at h
      | cons hd t iht =>
        intro out w hrun
        obtain ⟨k', v'⟩ := hd
        obtain ⟨oldv, defv, rest', wr, hold, hdef, hrest, hbr⟩ :=
          resolveFields_cons_ok clear flag pfx k' v' t oldC defC out w hrun
        constructor
        · intro h
          obtain ⟨df, rfl⟩ : ∃ df, defC = .obj df := by
            cases defC with
            | obj df => exact ⟨df, rfl⟩
            | null => simp [lockstepUnused] at h
            | bool b => simp [lockstepUnused] at h
            | num n => simp [lockstepUnused] at h
            | str u => simp [lockstepUnused] at h
            | arr xs => simp [lockstepUnused] at h
          have hdef' : defv = getKey df k' := by
            simpa [jsGet] using hdef.symm
          by_cases hk : k' = k
          · subst hk
            have hhead : getKey ((k', v') :: t) k' = some v' := by simp [getKey]
            rw [show lockstepUnused (.obj ((k', v') :: t)) (.obj df) (k' :: r2 :: rs)
                = (match getKey ((k', v') :: t) k', getKey df k' with
                   | some c', some d' =>
                     isObject c' && isObject d' && lockstepUnused c' d' (r2 :: rs)
                   | _, _ => false) from rfl, hhead] at h
            cases hdk : getKey df k' with
            | none => rw [hdk] at h; cases h
            | some dchild =>
              rw [hdk] at h
              simp only [Bool.and_eq_true] at h
              obtain ⟨⟨hobj1, hobj2⟩, hlk⟩ := h
              rw [hdk] at hdef'
              rcases hbr with ⟨_, _, dv, v'', wk, hdv, hrec, hout, hw⟩ | ⟨_, hB2, _, _⟩
                | ⟨hC, _, _⟩ | ⟨hD1, _, _, _⟩
              · have hdvc : dv = dchild := by
                  rw [hdef'] at hdv
                  exact (Option.some.injEq .. ▸ hdv).symm
                subst hdvc
                obtain ⟨cfields, rfl⟩ := isObject_obj v' hobj1
                simp only [resolveVal] at hrec
                cases hrun2 : resolveFields clear false
                    (if flag = true then k' else pfx ++ "." ++ k') cfields
                    (oldGuard oldv) dv with
                | error e => rw [hrun2] at hrec; cases hrec
                | ok pr3 =>
                  obtain ⟨cf', wk'⟩ := pr3
                  rw [hrun2] at hrec
                  simp only [Except.ok.injEq, Prod.mk.injEq] at hrec
                  obtain ⟨hv'', hwk⟩ := hrec
                  subst hv''; subst hwk
                  have hind := (ihseg cfields clear false
                      (if flag = true then k' else pfx ++ "." ++ k')
                      (oldGuard oldv) dv cf' wk' hrun2).1 hlk
                  constructor
                  · rw [hw]
                    refine List.mem_append.mpr (Or.inl ?_)
                    have hm := hind.1
                    simp only [if_false, Bool.false_eq_true] at hm
                    rw [joinDots_cons]
                    by_cases hf : flag = true
                    · simpa [hf, String.append_assoc] using hm
                    · simp only [hf, if_false, Bool.false_eq_true] at hm ⊢
                      simpa [String.append_assoc] using hm
                  · intro hc
                    have hdel := hind.2 hc
                    rw [hout]
                    show (match getKey ((k', JSON.obj cf') :: rest') k' with
                          | some v => getPath v (r2 :: rs)
                          | none => none) = none
                    simp [getKey, hdel]
              · exact absurd (typeOf_of_isObject v' hobj1) hB2
              · rw [hdef'] at hC; cases hC
              · rw [hdef'] at hD1
                exact absurd (by
                  rw [typeOf_of_isObject v' hobj1]
                  simpa [typeOfOpt] using typeOf_of_isObject dchild hobj2) hD1
          · have h' : lockstepUnused (.obj t) (.obj df) (k :: r2 :: rs) = true := by
              rw [show lockstepUnused (.obj ((k', v') :: t)) (.obj df) (k :: r2 :: rs)
                  = (match getKey ((k', v') :: t) k, getKey df k with
                     | some c', some d' =>
                       isObject c' && isObject d' && lockstepUnused c' d' (r2 :: rs)
                     | _, _ => false) from rfl] at h
              rw [show lockstepUnused (.obj t) (.obj df) (k :: r2 :: rs)
                  = (match getKey t k, getKey df k with
                     | some c', some d' =>
                       isObject c' && isObject d' && lockstepUnused c' d' (r2 :: rs)
                     | _, _ => false) from rfl]
              rwa [show getKey ((k', v') :: t) k = getKey t k by simp [getKey, hk]] at h
            have iht' := (iht rest' wr hrest).1 h'
            constructor
            · rcases hbr with ⟨_, _, _, _, _, _, _, hout, hw⟩ | ⟨_, _, hout, hw⟩
                | ⟨_, hout, hw⟩ | ⟨_, _, hout, hw⟩ <;> rw [hw] <;> simp [iht'.1]
            · intro hc
              have hnone' := iht'.2 hc
              have hstep : ∀ (l : List (String × JSON)),
                  getKey l k = getKey rest' k →
                  getPath (.obj l) (k :: r2 :: rs) = none := by
                intro l hl
                show (match getKey l k with
                      | some v => getPath v (r2 :: rs)
                      | none => none) = none
                rw [hl]
                exact hnone'
              rcases hbr with ⟨_, _, _, _, _, _, _, hout, _⟩ | ⟨_, _, hout, _⟩
                | ⟨_, hout, _⟩ | ⟨_, _, hout, _⟩
              · rw [hout]; exact hstep _ (by simp [getKey, hk])
              · rw [hout]; exact hstep _ (by simp [getKey, hk])
              · rw [hout]
                by_cases hcl : clear = true
                · simp only [hcl, ite_true]
                  exact hstep _ rfl
                · simp only [hcl, if_false, Bool.false_eq_true]
                  exact hstep _ (by simp [getKey, hk])
              · rw [hout]; exact hstep _ (by simp [getKey, hk])
        · intro h
          obtain ⟨df, rfl⟩ : ∃ df, defC = .obj df := by
            cases defC with
            | obj df => exact ⟨df, rfl⟩
            | null => simp [lockstepPresent] at h
            | bool b => simp [lockstepPresent] at h
            | num n => simp [lockstepPresent] at h
            | str u => simp [lockstepPresent] at h
            | arr xs => simp [lockstepPresent] at h
          have hdef' : defv = getKey df k' := by
            simpa [jsGet] using hdef.symm
          by_cases hk : k' = k
          · subst hk
            have hhead : getKey ((k', v') :: t) k' = some v' := by simp [getKey]
            rw [show lockstepPresent (.obj ((k', v') :: t)) (.obj df) (k' :: r2 :: rs)
                = (match getKey ((k', v') :: t) k', getKey df k' with
                   | some c', some d' =>
                     isObject c' && isObject d' && lockstepPresent c' d' (r2 :: rs)
                   | _, _ => false) from rfl, hhead] at h
            cases hdk : getKey df k' with
            | none => rw [hdk] at h; cases h
            | some dchild =>
              rw [hdk] at h
              simp only [Bool.and_eq_true] at h
              obtain ⟨⟨hobj1, hobj2⟩, hlk⟩ := h
              rw [hdk] at hdef'
              rcases hbr with ⟨_, _, dv, v'', wk, hdv, hrec, hout, hw⟩ | ⟨_, hB2, _, _⟩
                | ⟨hC, _, _⟩ | ⟨hD1, _, _, _⟩
              · have hdvc : dv = dchild := by
                  rw [hdef'] at hdv
                  exact (Option.some.injEq .. ▸ hdv).symm
                subst hdvc
                obtain ⟨cfields, rfl⟩ := isObject_obj v' hobj1
                simp only [resolveVal] at hrec
                cases hrun2 : resolveFields clear false
                    (if flag = true then k' else pfx ++ "." ++ k') cfields
                    (oldGuard oldv) dv with
                | error e => rw [hrun2] at hrec; cases hrec
                | ok pr3 =>
                  obtain ⟨cf', wk'⟩ := pr3
                  rw [hrun2] at hrec
                  simp only [Except.ok.injEq, Prod.mk.injEq] at hrec
                  obtain ⟨hv'', hwk⟩ := hrec
                  subst hv''; subst hwk
                  obtain ⟨v3, hv3⟩ := (ihseg cfields clear false
                      (if flag = true then k' else pfx ++ "." ++ k')
                      (oldGuard oldv) dv cf' wk' hrun2).2 hlk
                  refine ⟨v3, ?_⟩
                  rw [hout]
                  show (match getKey ((k', JSON.obj cf') :: rest') k' with
                        | some v => getPath v (r2 :: rs)
                        | none => none) = some v3
                  simp [getKey, hv3]
              · exact absurd (typeOf_of_isObject v' hobj1) hB2
              · rw [hdef'] at hC; cases hC
              · rw [hdef'] at hD1
                exact absurd (by
                  rw [typeOf_of_isObject v' hobj1]
                  simpa [typeOfOpt] using typeOf_of_isObject dchild hobj2) hD1
          · have h' : lockstepPresent (.obj t) (.obj df) (k :: r2 :: rs) = true := by
              rw [show lockstepPresent (.obj ((k', v') :: t)) (.obj df) (k :: r2 :: rs)
                  = (match getKey ((k', v') :: t) k, getKey df k with
                     | some c', some d' =>
                       isObject c' && isObject d' && lockstepPresent c' d' (r2 :: rs)
                     | _, _ => false) from rfl] at h
              rw [show lockstepPresent (.obj t) (.obj df) (k :: r2 :: rs)
                  = (match getKey t k, getKey df k with
                     | some c', some d' =>
                       isObject c' && isObject d' && lockstepPresent c' d' (r2 :: rs)
                     | _, _ => false) from rfl]
              rwa [show getKey ((k', v') :: t) k = getKey t k by simp [getKey, hk]] at h
            obtain ⟨v2, hv2⟩ := (iht rest' wr hrest).2 h'
            have hstep : ∀ (l : List (String × JSON)),
                getKey l k = getKey rest' k →
                getPath (.obj l) (k :: r2 :: rs) = some v2 := by
              intro l hl
              show (match getKey l k with
                    | some v => getPath v (r2 :: rs)
                    | none => none) = some v2
              rw [hl]
              show getPath (.obj rest') (k :: r2 :: rs) = some v2
              exact hv2
            rcases hbr with ⟨_, _, _, _, _, _, _, hout, _⟩ | ⟨_, _, hout, _⟩
              | ⟨_, hout, _⟩ | ⟨_, _, hout, _⟩
            · exact ⟨v2, by rw [hout]; exact hstep _ (by simp [getKey, hk])⟩
            · exact ⟨v2, by rw [hout]; exact hstep _ (by simp [getKey, hk])⟩
            · refine ⟨v2, ?_⟩
              rw [hout]
              by_cases hcl : clear = true
              · simp only [hcl, ite_true]
                exact hstep _ rfl
              · simp only [hcl, if_false, Bool.false_eq_true]
                exact hstep _ (by simp [getKey, hk])
            · exact ⟨v2, by rw [hout]; exact hstep _ (by simp [getKey, hk])⟩

theorem resolveVal_lockstep (segs : List String) (clear flag : Bool) (pfx : String)
    (conf oldC defC conf' : JSON) (w : VWalk)
    (hrun : resolveVal clear flag pfx conf oldC defC = .ok (conf', w)) :
    (lockstepUnused conf defC segs = true →
      (if flag then joinDots segs else pfx ++ "." ++ joinDots segs) ∈ w.unusedValues
      ∧ (clear = true → getPath conf' segs = none))
    ∧ (lockstepPresent conf defC segs = true → ∃ v', getPath conf' segs = some v') := by
  cases conf with
  | obj fields =>
    simp only [resolveVal] at hrun
    cases hrun2 : resolveFields clear flag pfx fields oldC defC with
    | error e => rw [hrun2] at hrun; cases hrun
    | ok pr =>
      obtain ⟨out, w0⟩ := pr
      rw [hrun2] at hrun
      simp only [Except.ok.injEq, Prod.mk.injEq] at hrun
      obtain ⟨h1, h2⟩ := hrun
      subst h1; subst h2
      exact resolveFields_lockstep segs fields clear flag pfx oldC defC out w0 hrun2
  | null => exact absurd hrun (by simp [resolveVal])
  | arr xs => exact absurd hrun (by simp [resolveVal])
  | str u => exact absurd hrun (by simp [resolveVal])
  | bool b =>
    constructor
    · intro h
      exfalso
      cases defC <;> cases segs <;> simp [lockstepUnused, lockstepUnused_nil] at h
    · intro h
      exfalso
      cases defC <;> cases segs <;> simp [lockstepPresent, lockstepPresent_nil] at h
  | num n =>
    constructor
    · intro h
      exfalso
      cases defC <;> cases segs <;> simp [lockstepUnused, lockstepUnused_nil] at h
    · intro h
      exfalso
      cases defC <;> cases segs <;> simp [lockstepPresent, lockstepPresent_nil] at h

/-- C9 (amended): for every key *visited by the lock-step walk* — every
proper ancestor of its dotted path is a plain mapping in both the Document
and the DefaultsTree — whose DefaultsTree entry is absent, `validateConfig`
records the full dotted path under `unusedValues`; when called with
`clearUnusedValues = true` it deletes each such key from the live Document
and persists the pruned Document to disk afterwards; keys whose DefaultsTree
entry is present stay in the Document; and if the file did not exist at
construction time the report's `created` field is forced to `true`
(`CreatedField.whole`). Nested keys *below* an absent entry are not
separately recorded (they are removed together with it when pruning). -/
theorem validate_lockstep_unused :
    (∀ (clear : Bool) (s s' : ConfigState) (rep : ConfigValidation) (c : JSON)
        (segs : List String),
      validateConfig s clear = .ok (s', rep) → s.config = some c →
      lockstepUnused c s.defaultConfig segs = true →
      joinDots segs ∈ rep.unusedValues
      ∧ (clear = true → ∃ c', s'.config = some c' ∧ getPath c' segs = none
          ∧ s'.disk = .valid c'))
    ∧ (∀ (clear : Bool) (s s' : ConfigState) (rep : ConfigValidation) (c : JSON)
        (segs : List String),
      validateConfig s clear = .ok (s', rep) → s.config = some c →
      lockstepPresent c s.defaultConfig segs = true →
      ∃ c' v', s'.config = some c' ∧ getPath c' segs = some v')
    ∧ (∀ (clear : Bool) (s s' : ConfigState) (rep : ConfigValidation),
      validateConfig s clear = .ok (s', rep) → s.created = true →
      rep.created = .whole) := by
  have hmain : ∀ (clear : Bool) (s s' : ConfigState) (rep : ConfigValidation) (c : JSON),
      validateConfig s clear = .ok (s', rep) → s.config = some c →
      ∃ (c' : JSON) (w0 : VWalk),
        resolveVal clear true "" c s.oldConfig s.defaultConfig = .ok (c', w0)
        ∧ rep.unusedValues = w0.unusedValues
        ∧ s'.config = some c'
        ∧ (clear = true → s'.disk = .valid c')
        ∧ (s.created = true → rep.created = .whole) := by
    intro clear s s' rep c hrun hcfg
    simp only [validateConfig, hcfg] at hrun
    cases hres : resolveVal clear true "" c s.oldConfig s.defaultConfig with
    | error e => rw [hres] at hrun; cases hrun
    | ok pr =>
      obtain ⟨c', w0⟩ := pr
      rw [hres] at hrun
      simp only [] at hrun
      refine ⟨c', w0, rfl, ?_⟩
      by_cases hc : clear = true
      · rw [if_pos hc] at hrun
        simp only [saveConfig] at hrun
        simp only [Except.ok.injEq, Prod.mk.injEq] at hrun
        obtain ⟨hs', hrep⟩ := hrun
        subst hs'
        refine ⟨by rw [← hrep], rfl, fun _ => rfl, fun hcr => by rw [← hrep]; simp [hcr]⟩
      · rw [if_neg hc] at hrun
        simp only [Except.ok.injEq, Prod.mk.injEq] at hrun
        obtain ⟨hs', hrep⟩ := hrun
        subst hs'
        exact ⟨by rw [← hrep], rfl, fun h => absurd h hc, fun hcr => by rw [← hrep]; simp [hcr]⟩
  refine ⟨?_, ?_, ?_⟩
  · intro clear s s' rep c segs hrun hcfg hlk
    obtain ⟨c', w0, hres, hunu, hcfg', hdisk, _⟩ := hmain clear s s' rep c hrun hcfg
    have hl := (resolveVal_lockstep segs clear true "" c s.oldConfig s.defaultConfig
      c' w0 hres).1 hlk
    constructor
    · rw [hunu]
      simpa using hl.1
    · intro hc
      exact ⟨c', hcfg', hl.2 hc, hdisk hc⟩
  · intro clear s s' rep c segs hrun hcfg hlk
    obtain ⟨c', w0, hres, _, hcfg', _, _⟩ := hmain clear s s' rep c hrun hcfg
    obtain ⟨v', hv'⟩ := (resolveVal_lockstep segs clear true "" c s.oldConfig
      s.defaultConfig c' w0 hres).2 hlk
    exact ⟨c', v', hcfg', hv'⟩
  · intro clear s s' rep hrun hcr
    cases hcfg : s.config with
    | none => simp [validateConfig, hcfg] at hrun
    | some c =>
      obtain ⟨_, _, _, _, _, _, hwh⟩ := hmain clear s s' rep c hrun hcfg
      exact hwh hcr

/-- C9 counterexample: on the document `{a:{b:1}}` with an empty
DefaultsTree, the nested key at dotted path `a.b` is present in the Document
and has no DefaultsTree entry, yet `validateConfig` records only `"a"` under
`unusedValues` — the walk does not recurse below a key whose default is
absent, so `"a.b"` is not recorded, refuting "every key ... records its full
dotted path". -/
theorem validate_nested_unused_not_recorded :
    validateConfig s9 false
      = .ok (s9, { created := .paths [], wrongTypes := [], unusedValues := ["a"] })
    ∧ getPath docAB ["a", "b"] = some (.num 1)
    ∧ getPath s9.defaultConfig ["a", "b"] = none
    ∧ "a.b" ∉ (["a"] : List String) := by decide

/-- Witness for the C9 amended theorem at concrete stores. -/
theorem validate_lockstep_unused_w :
    (joinDots ["DB", "extra"]
        ∈ ({ created := .paths [], wrongTypes := [], unusedValues := ["DB.extra"] }
            : ConfigValidation).unusedValues
      ∧ (true = true → ∃ c',
          ({ s9b with config := some doc9', disk := .valid doc9' } : ConfigState).config
              = some c'
            ∧ getPath c' ["DB", "extra"] = none
            ∧ ({ s9b with config := some doc9', disk := .valid doc9' } : ConfigState).disk
              = .valid c'))
    ∧ (∃ c' v', s9b.config = some c' ∧ getPath c' ["DB", "host"] = some v')
    ∧ ({ created := CreatedField.whole, wrongTypes := ([] : List WrongType),
         unusedValues := ([] : List String) } : ConfigValidation).created
        = .whole :=
  ⟨validate_lockstep_unused.1 true s9b
      { s9b with config := some doc9', disk := .valid doc9' }
      { created := .paths [], wrongTypes := [], unusedValues := ["DB.extra"] }
      doc9 ["DB", "extra"] (by decide) (by decide) (by decide),
   validate_lockstep_unused.2.1 false s9b s9b
      { created := .paths [], wrongTypes := [], unusedValues := ["DB.extra"] }
      doc9 ["DB", "host"] (by decide) (by decide) (by decide),
   validate_lockstep_unused.2.2 false (mkConfigManager .absent) (mkConfigManager .absent)
      { created := .whole, wrongTypes := [], unusedValues := [] }
      (by decide) (by decide)⟩
